import Mathlib

/-!
Shallow embedding of the picta photo search engine core
(`src/core/search_engine.py`, `src/core/database.py`,
`src/core/image_processor.py`, `src/visual_search/engine.py`).

Machine floats are idealised: the core engine's similarity scores and
stored vector entries are modelled as exact rationals (every `float32`
value is a rational, and the core engine performs only ring operations
and comparisons on them); the visual-search engine additionally performs
L2 normalisation (a square root), so its vectors are modelled over `ℝ`.
SQLite rows are modelled as Lean lists in table-scan (insertion) order;
`NULL`able columns are `Option`s.
-/

namespace Picta

/-! ## String helpers

Python's `in` operator on strings is substring containment (by code
points); SQLite's `LIKE '%x%'` is substring containment that is
case-insensitive on ASCII letters only, which coincides with
`Char.toLower` (ASCII-only lowering) applied to both sides. -/

/-- `hasSubList n l` : does `n` occur as a contiguous sublist of `l`?
Models Python's `needle in haystack` on strings (as code-point lists). -/
def hasSubList (n : List Char) : List Char → Bool
  | [] => n.isEmpty
  | c :: t => n.isPrefixOf (c :: t) || hasSubList n t

/-- Python `needle in haystack` for strings. -/
def strHas (hay needle : String) : Bool :=
  hasSubList needle.data hay.data

/-- Python `str.lower()` (ASCII letters; other code points unchanged,
which matches the ASCII keyword sets and Korean text used by the code). -/
def lowerStr (s : String) : String :=
  ⟨s.data.map Char.toLower⟩

/-- SQLite `hay LIKE '%pat%'` : ASCII-case-insensitive containment. -/
def likeHas (hay pat : String) : Bool :=
  strHas (lowerStr hay) (lowerStr pat)

/-- Python `name.endswith(suf)`. -/
def strEndsWith (name suf : String) : Bool :=
  suf.data.isSuffixOf name.data

/-- Python `name[:-k]` for `0 < k ≤ len(name)`. -/
def dropRightStr (s : String) (k : ℕ) : String :=
  ⟨s.data.take (s.data.length - k)⟩

/-! ## Data model (`src/core/database.py` schema)

One row of the `images` table.  `gps_lat`/`gps_lon` are separate
nullable columns exactly as in the schema; the embedding blob is decoded
to its `float32` entries (`clip_vector`), `NULL` when absent.  The
scalar type `α` is `ℚ` for the core engine and `ℝ` for the visual
engine. -/

structure ImageRow (α : Type) where
  id : ℤ
  file_path : String
  thumbnail_path : Option String := none
  taken_date : Option String := none
  gps_lat : Option ℚ := none
  gps_lon : Option ℚ := none
  location_name : Option String := none
  clip_vector : Option (List α) := none
  metadata : Option String := none
deriving Repr

/-- One row of the `faces` table (only the columns the core consumes). -/
structure FaceRow where
  image_id : ℤ
  person_name : Option String := none
deriving Repr, DecidableEq

/-- `location.coordinates` of a parsed query. -/
structure Coordinates where
  lat : ℚ
  lon : ℚ
  radius_km : Option ℚ := none
deriving Repr, DecidableEq

/-- `location` of a parsed query. -/
structure LocationData where
  names : List String := []
  coordinates : Option Coordinates := none
deriving Repr, DecidableEq

/-- `time_range` of a parsed query. -/
structure TimeRange where
  start : Option String := none
  end_ : Option String := none
deriving Repr, DecidableEq

/-- A parsed query (the dict produced by the query parser and consumed
by `SearchEngine.search`). -/
structure QueryPlan where
  time_range : TimeRange := {}
  location : Option LocationData := none
  people : List String := []
  search_text : String := ""
  keywords : List String := []
deriving Repr, DecidableEq

/-- An intermediate scored result `{'id': ..., 'similarity': ...}`. -/
structure Scored where
  id : ℤ
  similarity : ℚ
deriving Repr, DecidableEq

/-- An enriched search result (`SearchEngine._enrich_results`); the
`metadata` JSON text is carried through opaquely. -/
structure Enriched where
  id : ℤ
  file_path : String
  thumbnail_path : Option String
  taken_date : Option String
  location_name : Option String
  metadata : Option String
  similarity : ℚ
deriving Repr, DecidableEq

end Picta

namespace Picta.SearchEngine

/-! ## Threshold policy (`SearchEngine._get_dynamic_threshold`) -/

def food_keywords : List String :=
  ["food", "meal", "eat", "restaurant", "pasta", "pizza",
   "steak", "sushi", "coffee", "cake", "dessert", "lunch",
   "dinner", "breakfast", "burger", "hamburger", "ramen", "noodle"]

def person_keywords : List String :=
  ["person", "people", "family", "friend", "portrait",
   "selfie", "group", "face", "man", "woman", "child"]

def place_keywords : List String :=
  ["beach", "mountain", "city", "park", "building",
   "street", "ocean", "lake", "forest", "bridge", "casino"]

def activity_keywords : List String :=
  ["walking", "running", "swimming", "playing",
   "dancing", "singing", "cooking", "reading", "travel"]

/-- The `self.thresholds` table from `SearchEngine.__init__`. -/
def thresholds_default : ℚ := 0.26
def thresholds_food : ℚ := 0.24
def thresholds_person : ℚ := 0.28
def thresholds_place : ℚ := 0.25
def thresholds_activity : ℚ := 0.25

/-- `SearchEngine._get_dynamic_threshold`. -/
def get_dynamic_threshold (search_text : String) : ℚ :=
  let search_lower := lowerStr search_text
  if food_keywords.any (fun kw => strHas search_lower kw) then
    thresholds_food
  else if person_keywords.any (fun kw => strHas search_lower kw) then
    thresholds_person
  else if place_keywords.any (fun kw => strHas search_lower kw) then
    thresholds_place
  else if activity_keywords.any (fun kw => strHas search_lower kw) then
    thresholds_activity
  else
    thresholds_default

/-! ## Korean location-name normalisation
(`SearchEngine._normalize_korean_location`) -/

def korean_suffixes : List String :=
  ["특별자치도", "특별자치시", "광역시", "특별시", "자치도", "자치시", "도", "시", "군", "구"]

/-- `SearchEngine._normalize_korean_location`.  The Python function
returns `list(set(variants))` whose order is arbitrary; we return the
deduplicated list in first-occurrence order (all consumers are
order-insensitive). -/
def normalize_korean_location (name : String) : List String :=
  let base_name :=
    match korean_suffixes.find?
        (fun suffix => strEndsWith name suffix && decide (suffix.length < name.length)) with
    | some suffix => dropRightStr name suffix.length
    | none => name
  let variants := if base_name = name then [name] else [name, base_name]
  let variants :=
    if base_name ≠ name then
      ["시", "도"].foldl
        (fun acc suf =>
          if (base_name ++ suf) ∈ acc then acc else acc ++ [base_name ++ suf])
        variants
    else variants
  variants.dedup

/-- The variant set of a place name, as a finite set. -/
def variantSet (name : String) : Finset String :=
  (normalize_korean_location name).toFinset

/-! ## The engine state

`images`/`faces` model the SQLite tables in scan order; `encodeText`
models the external CLIP text encoder (`clip_processor.encode_text`, an
out-of-scope pure function); `faiss_index` is the list of vectors added
to the flat inner-product index (`none` before a successful build) and
`id_mapping` maps index positions to image ids. -/

structure Engine where
  images : List (ImageRow ℚ)
  faces : List FaceRow := []
  encodeText : String → List ℚ
  vector_dim : ℕ := 768
  faiss_index : Option (List (List ℚ)) := none
  id_mapping : List ℤ := []

/-- Inner product of two decoded vectors (`np.dot` / FAISS `IndexFlatIP`
score; the engine only ever compares vectors of equal length). -/
def dot (u v : List ℚ) : ℚ :=
  (List.zipWith (· * ·) u v).sum

/-- Squared L2 norm of a vector. -/
def normSq (v : List ℚ) : ℚ :=
  (v.map (fun x => x * x)).sum

/-! ## Index build (`SearchEngine._build_faiss_index`)

The build reads `(id, clip_vector)` for all rows with a non-`NULL`
vector, resets `id_mapping`, skips rows whose decoded length differs
from `vector_dim`, and replaces the index — with two early returns: if
no row has a vector at all, the previous `faiss_index` *and*
`id_mapping` survive; if rows exist but none has a valid length, the
previous `faiss_index` survives while `id_mapping` has already been
reset to `[]`. -/

/-- The `(id, clip_vector)` rows fetched by the build's
`SELECT id, clip_vector FROM images WHERE clip_vector IS NOT NULL`. -/
def scanned_rows (images : List (ImageRow ℚ)) : List (ℤ × List ℚ) :=
  images.filterMap (fun r => r.clip_vector.map (fun v => (r.id, v)))

/-- The scanned rows that pass the build's only validity check: decoded
vector length equal to `vector_dim`. -/
def valid_rows (images : List (ImageRow ℚ)) (vector_dim : ℕ) :
    List (ℤ × List ℚ) :=
  (scanned_rows images).filter (fun p => p.2.length = vector_dim)

def build_faiss_index (images : List (ImageRow ℚ)) (vector_dim : ℕ)
    (prev : Option (List (List ℚ)) × List ℤ) :
    Option (List (List ℚ)) × List ℤ :=
  let rows := scanned_rows images
  if rows.isEmpty then prev
  else
    let valid := rows.filter (fun p => p.2.length = vector_dim)
    if valid.isEmpty then (prev.1, [])
    else (some (valid.map (·.2)), valid.map (·.1))

/-- `SearchEngine.rebuild_index`. -/
def rebuild_index (e : Engine) : Engine :=
  let st := build_faiss_index e.images e.vector_dim (e.faiss_index, e.id_mapping)
  { e with faiss_index := st.1, id_mapping := st.2 }

/-! ## Metadata filters -/

/-- `SearchEngine._filter_by_date`: SQL comparisons on the `taken_date`
TEXT column; a `NULL` date fails any bound (SQL three-valued logic), and
a bound is applied only when truthy (present and non-empty). -/
def filter_by_date (images : List (ImageRow ℚ)) (time_range : TimeRange) : List ℤ :=
  (images.filter (fun r =>
      (match time_range.start with
       | none => true
       | some s =>
         if s.isEmpty then true
         else match r.taken_date with
              | none => false
              | some d => s ≤ d) &&
      (match time_range.end_ with
       | none => true
       | some en =>
         if en.isEmpty then true
         else match r.taken_date with
              | none => false
              | some d => d ≤ en ++ " 23:59:59"))).map (·.id)

/-- `radians(x)` (`math.radians`). -/
noncomputable def radiansQ (x : ℚ) : ℝ :=
  (x : ℝ) * Real.pi / 180

/-- `math.atan2 y x`, which is the argument of the complex number
`x + y·i` (principal value in `(-π, π]`, with `atan2 0 0 = 0`). -/
noncomputable def atan2 (y x : ℝ) : ℝ :=
  Complex.arg ⟨x, y⟩

/-- `SearchEngine._haversine_distance` (result in km). -/
noncomputable def haversine_distance (lat1 lon1 lat2 lon2 : ℚ) : ℝ :=
  let R : ℝ := 6371
  let lat1' := radiansQ lat1
  let lon1' := radiansQ lon1
  let lat2' := radiansQ lat2
  let lon2' := radiansQ lon2
  let dlat := lat2' - lat1'
  let dlon := lon2' - lon1'
  let a := Real.sin (dlat / 2) ^ 2 +
    Real.cos lat1' * Real.cos lat2' * Real.sin (dlon / 2) ^ 2
  let c := 2 * atan2 (Real.sqrt a) (Real.sqrt (1 - a))
  R * c

/-- `SearchEngine._filter_by_gps`: empty unless both a candidate list
and query coordinates are present; keeps candidates whose row has both
GPS columns non-`NULL` and lies within `radius_km` (default 5). -/
noncomputable def filter_by_gps (images : List (ImageRow ℚ)) (candidate_ids : List ℤ)
    (location_data : LocationData) : List ℤ :=
  match location_data.coordinates with
  | none => []
  | some coords =>
    if candidate_ids = [] then []
    else
      let radius_km := coords.radius_km.getD 5
      ((images.filter (fun r =>
          candidate_ids.contains r.id && r.gps_lat.isSome && r.gps_lon.isSome)).filter
        (fun r =>
          decide (haversine_distance coords.lat coords.lon
            (r.gps_lat.getD 0) (r.gps_lon.getD 0) ≤ (radius_km : ℝ)))).map (·.id)

/-- `SearchEngine._filter_by_location_name`: variants of the first two
plan names only (`location_names[:2]`), matched with SQL `LIKE` against
rows whose `location_name` is non-`NULL` and whose GPS columns are both
`NULL`. -/
def filter_by_location_name (images : List (ImageRow ℚ)) (candidate_ids : List ℤ)
    (location_data : LocationData) : List ℤ :=
  if candidate_ids = [] then []
  else
    let location_names := location_data.names
    if location_names = [] then []
    else
      let all_variants :=
        ((location_names.take 2).flatMap normalize_korean_location).dedup
      (images.filter (fun r =>
          candidate_ids.contains r.id &&
          r.location_name.isSome && r.gps_lat.isNone && r.gps_lon.isNone &&
          all_variants.any (fun v => likeHas (r.location_name.getD "") v))).map (·.id)

/-- `SearchEngine._filter_by_location_hybrid`: deduplicated union of the
GPS subset and the name subset (Python's `list(set(a + b))`, modelled in
first-occurrence order — all consumers are order-insensitive). -/
noncomputable def filter_by_location_hybrid (images : List (ImageRow ℚ))
    (candidate_ids : List ℤ) (location_data : LocationData) : List ℤ :=
  if candidate_ids = [] then []
  else
    (filter_by_gps images candidate_ids location_data ++
      filter_by_location_name images candidate_ids location_data).dedup

/-! ## Date-descending sort (`SearchEngine._sort_by_date_desc`) -/

/-- SQLite `ORDER BY taken_date DESC` key order on one nullable TEXT
column: larger TEXT first, `NULL`s last. -/
def optDateGe : Option String → Option String → Prop
  | some _, none => True
  | none, none => True
  | none, some _ => False
  | some u, some v => v ≤ u

instance instDecOptDateGe (x y : Option String) : Decidable (optDateGe x y) :=
  match x, y with
  | some _, none => isTrue trivial
  | none, none => isTrue trivial
  | none, some _ => isFalse (fun h => h)
  | some u, some v => inferInstanceAs (Decidable (v ≤ u))

theorem optDateGe_total (x y : Option String) : optDateGe x y ∨ optDateGe y x := by
  cases x <;> cases y <;> simp [optDateGe]
  exact le_total _ _

theorem optDateGe_trans {x y z : Option String}
    (hxy : optDateGe x y) (hyz : optDateGe y z) : optDateGe x z := by
  cases x <;> cases y <;> cases z <;> simp_all [optDateGe]
  exact le_trans hyz hxy

/-- Sort order of `ORDER BY taken_date DESC` on rows. -/
def dateDescRel (a b : ImageRow ℚ) : Prop :=
  optDateGe a.taken_date b.taken_date

instance : DecidableRel dateDescRel := fun a b =>
  inferInstanceAs (Decidable (optDateGe a.taken_date b.taken_date))

instance : IsTotal (ImageRow ℚ) dateDescRel :=
  ⟨fun a b => optDateGe_total a.taken_date b.taken_date⟩

instance : IsTrans (ImageRow ℚ) dateDescRel :=
  ⟨fun _ _ _ hab hbc => optDateGe_trans hab hbc⟩

/-- `SearchEngine._sort_by_date_desc` (`SELECT id WHERE id IN (...)
ORDER BY taken_date DESC LIMIT limit`). -/
def sort_by_date_desc (images : List (ImageRow ℚ)) (ids : List ℤ)
    (limit : ℕ) : List ℤ :=
  if ids = [] then []
  else
    ((((images.filter (fun r => ids.contains r.id)).insertionSort
        dateDescRel).take limit).map (·.id))

/-! ## Similarity-descending sort (`results.sort(key=..., reverse=True)`) -/

def simDescRel (a b : Scored) : Prop :=
  b.similarity ≤ a.similarity

instance : DecidableRel simDescRel := fun a b =>
  inferInstanceAs (Decidable (b.similarity ≤ a.similarity))

instance : IsTotal Scored simDescRel :=
  ⟨fun a b => le_total b.similarity a.similarity⟩

instance : IsTrans Scored simDescRel :=
  ⟨fun _ _ _ hab hbc => le_trans hbc hab⟩

def sort_by_sim_desc (l : List Scored) : List Scored :=
  l.insertionSort simDescRel

/-! ## CLIP text search (`SearchEngine._search_by_clip_faiss` /
`_search_by_clip_legacy`)

The FAISS `IndexFlatIP.search(q, k)` call is modelled as: score every
indexed vector by inner product with `q`, sort descending, take `k`
(`k = min(100, ntotal)`, so no `-1` padding occurs).  The legacy SQLite
fallback scores candidate rows directly; when a candidate row's
`clip_vector` is `NULL`, `np.frombuffer(None)` raises, modelled as
`none`. -/

def search_by_clip_legacy (e : Engine) (search_text : String)
    (candidate_ids : Option (List ℤ)) : Option (List Scored) :=
  let text_vector := e.encodeText search_text
  let scoreAll : List Scored :=
    sort_by_sim_desc ((e.images.filter (fun r => r.clip_vector.isSome)).map
      (fun r => ⟨r.id, dot text_vector (r.clip_vector.getD [])⟩))
  match candidate_ids with
  | none => some scoreAll
  | some cs =>
    if cs.isEmpty then some scoreAll
    else
      let rows := e.images.filter (fun r => cs.contains r.id)
      if rows.all (fun r => r.clip_vector.isSome) then
        some (sort_by_sim_desc (rows.map
          (fun r => ⟨r.id, dot text_vector (r.clip_vector.getD [])⟩)))
      else none

def search_by_clip_faiss (e : Engine) (search_text : String)
    (candidate_ids : Option (List ℤ)) : Option (List Scored) :=
  match e.faiss_index with
  | none => search_by_clip_legacy e search_text candidate_ids
  | some vecs =>
    if e.id_mapping.isEmpty then search_by_clip_legacy e search_text candidate_ids
    else
      let text_vector := e.encodeText search_text
      let k := min 100 vecs.length
      let scored := (e.id_mapping.zip vecs).map
        (fun p => (⟨p.1, dot text_vector p.2⟩ : Scored))
      let top := (sort_by_sim_desc scored).take k
      let results :=
        match candidate_ids with
        | none => top
        | some cs => top.filter (fun r => cs.contains r.id)
      some (sort_by_sim_desc results)

/-! ## Branch classification and the threshold step of `search` -/

def generic_keywords : List String :=
  ["여행", "travel", "풍경", "landscape", "scenic", "관광", "tour",
   "trip", "vacation", "사진", "photo", "picture", "image",
   "nature", "자연", "view", "뷰", "경치", "island", "섬"]

/-- The `meaningful_keywords` computation inside `SearchEngine.search`:
drop keywords whose lowercase contains any (lowercased) plan location
name, and those containing a generic travel/scenery keyword. -/
def meaningful_keywords (plan : QueryPlan) : List String :=
  let location_names :=
    match plan.location with
    | some l => l.names
    | none => []
  plan.keywords.filter (fun kw =>
    let kw_lower := lowerStr kw
    !(location_names.any (fun loc => strHas kw_lower (lowerStr loc))) &&
    !(generic_keywords.any (fun g => strHas kw_lower g)))

/-- Lines 185–198 of `SearchEngine.search`: dynamic-threshold filtering
of the CLIP results, with the ≥ 0.20 top-1 fallback. -/
def threshold_step (clip_results : List Scored) (threshold : ℚ)
    (top_k : ℕ) : List Scored :=
  let filtered_results := clip_results.filter (fun r => threshold < r.similarity)
  match clip_results with
  | [] => filtered_results.take top_k
  | r0 :: _ =>
    if filtered_results.isEmpty then
      if 0.20 ≤ r0.similarity then [r0] else []
    else filtered_results.take top_k

/-- `SearchEngine._filter_by_people`: keep results having a `faces` row
with a matching `person_name`. -/
def filter_by_people (faces : List FaceRow) (results : List Scored)
    (people : List String) : List Scored :=
  if results.isEmpty then []
  else
    results.filter (fun r =>
      faces.any (fun f =>
        f.image_id = r.id &&
        (match f.person_name with
         | some p => people.contains p
         | none => false)))

/-- `SearchEngine._enrich_results`: per result, the first `images` row
with that id (`fetchone`); results without a row are dropped. -/
def enrich_results (images : List (ImageRow ℚ)) (results : List Scored) :
    List Enriched :=
  if results.isEmpty then []
  else
    results.filterMap (fun res =>
      (images.find? (fun r => r.id = res.id)).map (fun row =>
        { id := res.id
          file_path := row.file_path
          thumbnail_path := row.thumbnail_path
          taken_date := row.taken_date
          location_name := row.location_name
          metadata := row.metadata
          similarity := res.similarity }))

/-! ## `SearchEngine.search` -/

/-- Line 177 of `search`:
`candidate_ids = location_filtered if location_filtered else date_filtered`
(Python truthiness: both `None` and `[]` fall through to
`date_filtered`). -/
def semantic_candidates (location_filtered : Option (List ℤ))
    (date_filtered : List ℤ) : List ℤ :=
  match location_filtered with
  | some l => if l.isEmpty then date_filtered else l
  | none => date_filtered

/-- `SearchEngine.search(parsed_query, top_k)`.  Returns `none` when the
underlying Python would raise (only possible on the legacy CLIP path). -/
noncomputable def search (e : Engine) (parsed_query : QueryPlan)
    (top_k : ℕ := 10) : Option (List Enriched) :=
  let date_filtered := filter_by_date e.images parsed_query.time_range
  let location_filtered : Option (List ℤ) :=
    parsed_query.location.map
      (fun l => filter_by_location_hybrid e.images date_filtered l)
  let has_location := parsed_query.location.isSome
  let has_keywords := !(meaningful_keywords parsed_query).isEmpty
  let results : Option (List Scored) :=
    if has_location && !has_keywords then
      some
        (match location_filtered with
         | some l =>
           if l.isEmpty then []
           else (sort_by_date_desc e.images l top_k).map (fun id => ⟨id, 1⟩)
         | none => [])
    else if !parsed_query.search_text.isEmpty then
      let candidate_ids := semantic_candidates location_filtered date_filtered
      (search_by_clip_faiss e parsed_query.search_text (some candidate_ids)).map
        (fun clip_results =>
          threshold_step clip_results
            (get_dynamic_threshold parsed_query.search_text) top_k)
    else
      some ((date_filtered.take top_k).map (fun id => ⟨id, 0⟩))
  results.map (fun rs =>
    let rs :=
      if parsed_query.people.isEmpty then rs
      else filter_by_people e.faces rs parsed_query.people
    enrich_results e.images rs)

end Picta.SearchEngine

namespace Picta

/-! ## The image processor (`src/core/image_processor.py`) and the store
(`src/core/database.py`) -/

/-- `CLIPImageProcessor.encode_image`: the external CLIP model is an
out-of-scope pure function producing a unit-norm vector; the `try`
block's outcome is modelled as an `Option` — on any failure the
function returns the all-zeros vector of the model's dimension. -/
def encode_image (vector_dim : ℕ) (model_output : Option (List ℚ)) : List ℚ :=
  match model_output with
  | some v => v
  | none => List.replicate vector_dim 0

/-- `DatabaseManager.save_image` (`INSERT OR REPLACE` keyed by the
unique `file_path`; a fresh autoincrement id; the vector bytes are
stored unchanged). -/
structure SaveMeta where
  taken_date : Option String := none
  gps_lat : Option ℚ := none
  gps_lon : Option ℚ := none
  location_name : Option String := none
  raw : Option String := none

def save_image (images : List (ImageRow ℚ)) (file_path : String)
    (clip_vector : List ℚ) (metadata : SaveMeta) : List (ImageRow ℚ) × ℤ :=
  let new_id := (images.map (·.id)).foldr max 0 + 1
  let row : ImageRow ℚ :=
    { id := new_id
      file_path := file_path
      taken_date := metadata.taken_date
      gps_lat := metadata.gps_lat
      gps_lon := metadata.gps_lon
      location_name := metadata.location_name
      clip_vector := some clip_vector
      metadata := metadata.raw }
  (images.filter (fun r => r.file_path ≠ file_path) ++ [row], new_id)

end Picta

namespace Picta.VisualSearchEngine

/-! ## Visual search engine (`src/visual_search/engine.py`)

This engine L2-normalises the stored vectors (`faiss.normalize_L2`)
before adding them to the index, so its scores are genuine cosine
similarities; vectors are modelled over `ℝ`.  Lean's conventional
`x / 0 = 0` makes `normalize_L2` send the all-zeros vector to itself. -/

structure VEngine where
  images : List (ImageRow ℝ)
  faiss_index : Option (List (List ℝ)) := none
  id_mapping : List ℤ := []

/-- Inner product over `ℝ` (FAISS `IndexFlatIP` score). -/
def dotR (u v : List ℝ) : ℝ :=
  (List.zipWith (· * ·) u v).sum

/-- Squared L2 norm over `ℝ`. -/
def sumSq (v : List ℝ) : ℝ :=
  (v.map (fun x => x ^ 2)).sum

/-- `faiss.normalize_L2`. -/
noncomputable def normalize_L2 (v : List ℝ) : List ℝ :=
  v.map (fun x => x / Real.sqrt (sumSq v))

/-- `VisualSearchEngine._build_index`: every row with a non-`NULL`
vector is normalised and added (no dimension check here). -/
noncomputable def build_index (images : List (ImageRow ℝ))
    (prev : Option (List (List ℝ)) × List ℤ) :
    Option (List (List ℝ)) × List ℤ :=
  let rows := images.filterMap (fun r => r.clip_vector.map (fun v => (r.id, v)))
  if rows.isEmpty then prev
  else (some (rows.map (fun p => normalize_L2 p.2)), rows.map (·.1))

/-- The engine as built by `__init__` from a database. -/
noncomputable def fromImages (images : List (ImageRow ℝ)) : VEngine :=
  let st := build_index images (none, [])
  { images := images, faiss_index := st.1, id_mapping := st.2 }

/-- `VisualSearchEngine._get_vector`; `if row and row[0]:` makes an
empty vector blob behave like a missing one. -/
def get_vector (images : List (ImageRow ℝ)) (image_id : ℤ) :
    Option (List ℝ) :=
  (images.find? (fun r => r.id = image_id)).bind (fun r =>
    match r.clip_vector with
    | some v => if v.isEmpty then none else some v
    | none => none)

/-- `VisualSearchEngine._get_image_info`. -/
def get_image_info (images : List (ImageRow ℝ)) (image_id : ℤ) :
    Option (ImageRow ℝ) :=
  images.find? (fun r => r.id = image_id)

/-- Descending-score order used to model the FAISS top-k result. -/
def scoreDescRel (a b : ℤ × ℝ) : Prop :=
  b.2 ≤ a.2

noncomputable instance : DecidableRel scoreDescRel := fun a b =>
  inferInstanceAs (Decidable (b.2 ≤ a.2))

instance : IsTotal (ℤ × ℝ) scoreDescRel :=
  ⟨fun a b => le_total b.2 a.2⟩

instance : IsTrans (ℤ × ℝ) scoreDescRel :=
  ⟨fun _ _ _ hab hbc => le_trans hbc hab⟩

noncomputable def sort_score_desc (l : List (ℤ × ℝ)) : List (ℤ × ℝ) :=
  l.insertionSort scoreDescRel

/-- `VisualSearchEngine.find_similar_by_image`.  The FAISS search with
`k = top_k + 1` (when excluding self) is modelled as the first `k`
entries of the descending-score ranking of all indexed vectors; the
result loop drops the self-hit, enriches via `_get_image_info` and
stops at `top_k` results. -/
noncomputable def find_similar_by_image (e : VEngine) (image_id : ℤ)
    (top_k : ℕ := 10) (exclude_self : Bool := true) :
    List (ImageRow ℝ × ℝ) :=
  match e.faiss_index with
  | none => []
  | some vecs =>
    match get_vector e.images image_id with
    | none => []
    | some query_vector =>
      let q := normalize_L2 query_vector
      let k := if exclude_self then top_k + 1 else top_k
      let scored := (e.id_mapping.zip vecs).map (fun p => (p.1, dotR q p.2))
      let top := (sort_score_desc scored).take k
      let kept := if exclude_self then top.filter (fun p => p.1 ≠ image_id) else top
      (kept.filterMap (fun p =>
        (get_image_info e.images p.1).map (fun info => (info, p.2)))).take top_k

end Picta.VisualSearchEngine


namespace Picta

open SearchEngine

/-! ## Concrete fixtures used by counterexamples and witnesses -/

/-- A stored row with a valid two-dimensional embedding. -/
def exRowA : ImageRow ℚ :=
  { id := 1, file_path := "a.jpg", taken_date := some "2024-07-01",
    clip_vector := some [1, 0] }

/-- A second row, older, with an orthogonal embedding. -/
def exRowB : ImageRow ℚ :=
  { id := 2, file_path := "b.jpg", taken_date := some "2023-05-02",
    clip_vector := some [0, 1] }

/-- A row with no GPS whose `location_name` mentions Jeju. -/
def exRowJeju : ImageRow ℚ :=
  { id := 3, file_path := "j.jpg", taken_date := some "2024-01-05",
    location_name := some "제주시 애월읍", clip_vector := some [1, 0] }

/-- A two-row engine (dimension 2) with its index built. -/
def exEngine : Engine :=
  let images := [exRowA, exRowB]
  let st := build_faiss_index images 2 (none, [])
  { images := images, encodeText := fun _ => [1, 0], vector_dim := 2,
    faiss_index := st.1, id_mapping := st.2 }

/-- An engine whose store was emptied after its index was built (used
for the stale-rebuild counterexample). -/
def exEngineStale : Engine :=
  { images := [exRowA], encodeText := fun _ => [], vector_dim := 2 }

/-- A one-row engine (dimension 2) with its index built. -/
def exEngineA : Engine :=
  let images := [exRowA]
  let st := build_faiss_index images 2 (none, [])
  { images := images, encodeText := fun _ => [1, 0], vector_dim := 2,
    faiss_index := st.1, id_mapping := st.2 }

/-- The enriched result produced for `exRowA` with similarity 1. -/
def exEnriched1 : Enriched :=
  { id := 1, file_path := "a.jpg", thumbnail_path := none,
    taken_date := some "2024-07-01", location_name := none,
    metadata := none, similarity := 1 }

/-- A three-photo store over `ℝ` for the visual-search witness. -/
def exVImages : List (ImageRow ℝ) :=
  [{ id := 1, file_path := "a.jpg", clip_vector := some [1, 0] },
   { id := 2, file_path := "b.jpg", clip_vector := some [0, 1] },
   { id := 3, file_path := "c.jpg", clip_vector := some [1, 1] }]

/-- An engine whose single photo is `exRowJeju`, index built. -/
def exEngineJeju : Engine :=
  let images := [exRowJeju]
  let st := build_faiss_index images 2 (none, [])
  { images := images, encodeText := fun _ => [1, 0], vector_dim := 2,
    faiss_index := st.1, id_mapping := st.2 }

/-- An engine whose single photo has the all-zeros embedding produced by
a failed `encode_image`, stored via `save_image` and indexed. -/
def exEngineZero : Engine :=
  let images := (save_image [] "broken.jpg" (encode_image 2 none) {}).1
  let st := build_faiss_index images 2 (none, [])
  { images := images, encodeText := fun _ => [1, 0], vector_dim := 2,
    faiss_index := st.1, id_mapping := st.2 }

/-- A plan with a Jeju location (no coordinates), a meaningful keyword
and a semantic text: Branch B with a location filter. -/
def exPlanB : QueryPlan :=
  { location := some { names := ["제주"] }, search_text := "beach",
    keywords := ["수영"] }

/-- A location-only plan (generic keywords only): Branch A. -/
def exPlanA : QueryPlan :=
  { location := some { names := ["제주"] }, search_text := "",
    keywords := ["여행", "사진"] }

/-- A keyword-only semantic plan. -/
def exPlanSem : QueryPlan :=
  { search_text := "beach" }

/-- Follows the words of claim C5 (not the code): the name subset
matches, case-insensitively, at least one variant of *any* of the
plan's location names — where the code (`_filter_by_location_name`)
uses only the first two names (`location_names[:2]`). -/
def location_name_subset_claimed (images : List (ImageRow ℚ))
    (candidate_ids : List ℤ) (location_data : LocationData) : List ℤ :=
  if candidate_ids = [] then []
  else
    let location_names := location_data.names
    if location_names = [] then []
    else
      let all_variants := (location_names.flatMap normalize_korean_location).dedup
      (images.filter (fun r =>
          candidate_ids.contains r.id &&
          r.location_name.isSome && r.gps_lat.isNone && r.gps_lon.isNone &&
          all_variants.any (fun v => likeHas (r.location_name.getD "") v))).map (·.id)

end Picta

namespace Picta.SearchEngine

/-! # Helper lemmas -/

theorem get_dynamic_threshold_ge (s : String) :
    (0.20 : ℚ) ≤ get_dynamic_threshold s := by
  simp only [get_dynamic_threshold]
  split_ifs <;>
    norm_num [thresholds_food, thresholds_person, thresholds_place,
      thresholds_activity, thresholds_default]

end Picta.SearchEngine

namespace Picta

open SearchEngine

/-! # Claim C9 — the dynamic-threshold policy -/

/-- C9: the threshold policy is a deterministic pure function of
`search_text`: the lowercased text is matched against the food, person,
place and activity keyword sets in that order, giving τ = 0.24, 0.28,
0.25, 0.25 respectively, and 0.26 when no set matches. -/
theorem C9_threshold_policy (s : String) :
    (∀ t : String, t = s → get_dynamic_threshold t = get_dynamic_threshold s) ∧
    (food_keywords.any (fun kw => strHas (lowerStr s) kw) = true →
      get_dynamic_threshold s = 0.24) ∧
    (food_keywords.any (fun kw => strHas (lowerStr s) kw) = false →
      person_keywords.any (fun kw => strHas (lowerStr s) kw) = true →
      get_dynamic_threshold s = 0.28) ∧
    (food_keywords.any (fun kw => strHas (lowerStr s) kw) = false →
      person_keywords.any (fun kw => strHas (lowerStr s) kw) = false →
      place_keywords.any (fun kw => strHas (lowerStr s) kw) = true →
      get_dynamic_threshold s = 0.25) ∧
    (food_keywords.any (fun kw => strHas (lowerStr s) kw) = false →
      person_keywords.any (fun kw => strHas (lowerStr s) kw) = false →
      place_keywords.any (fun kw => strHas (lowerStr s) kw) = false →
      activity_keywords.any (fun kw => strHas (lowerStr s) kw) = true →
      get_dynamic_threshold s = 0.25) ∧
    (food_keywords.any (fun kw => strHas (lowerStr s) kw) = false →
      person_keywords.any (fun kw => strHas (lowerStr s) kw) = false →
      place_keywords.any (fun kw => strHas (lowerStr s) kw) = false →
      activity_keywords.any (fun kw => strHas (lowerStr s) kw) = false →
      get_dynamic_threshold s = 0.26) := by
  refine ⟨fun t ht => by rw [ht], ?_, ?_, ?_, ?_, ?_⟩
  · intro h1
    simp only [get_dynamic_threshold, h1]
    norm_num [thresholds_food]
  · intro h1 h2
    simp only [get_dynamic_threshold, h1, h2]
    norm_num [thresholds_person]
  · intro h1 h2 h3
    simp only [get_dynamic_threshold, h1, h2, h3]
    norm_num [thresholds_place]
  · intro h1 h2 h3 h4
    simp only [get_dynamic_threshold, h1, h2, h3, h4]
    norm_num [thresholds_activity]
  · intro h1 h2 h3 h4
    simp only [get_dynamic_threshold, h1, h2, h3, h4]
    norm_num [thresholds_default]

/-- Witness for C9 at a concrete food query. -/
theorem C9_threshold_policy_witness :
    food_keywords.any (fun kw => strHas (lowerStr "pasta for lunch") kw) = true ∧
    get_dynamic_threshold "pasta for lunch" = 0.24 :=
  ⟨by decide, (C9_threshold_policy "pasta for lunch").2.1 (by decide)⟩

/-! # Claim C6 — Korean-suffix normalisation -/

/-- C6 counterexample: normalisation is not idempotent as a set
operation on every name.  For the name "제주도시": "제주도" is one of its
variants, "제주" is a variant of "제주도", yet "제주" is not a variant of
"제주도시". -/
theorem C6_normalization_counterexample :
    "제주도" ∈ variantSet "제주도시" ∧
    "제주" ∈ variantSet "제주도" ∧
    "제주" ∉ variantSet "제주도시" := by decide

/-- C6 (amended): "제주도" maps to exactly {제주도, 제주, 제주시};
idempotence holds on the variant sets of "제주도" and "제주" (though not
for every name), and the two variant sets intersect. -/
theorem C6_normalization :
    variantSet "제주도" = {"제주도", "제주", "제주시"} ∧
    (∀ v ∈ variantSet "제주도", variantSet v ⊆ variantSet "제주도") ∧
    (∀ v ∈ variantSet "제주", variantSet v ⊆ variantSet "제주") ∧
    (variantSet "제주" ∩ variantSet "제주도").Nonempty := by decide

/-- Witness for C6 at the concrete variant "제주시". -/
theorem C6_normalization_witness :
    "제주시" ∈ variantSet "제주도" ∧
    variantSet "제주시" ⊆ variantSet "제주도" :=
  ⟨by decide, (C6_normalization).2.1 "제주시" (by decide)⟩

end Picta

namespace Picta

open SearchEngine

/-! # Claim C2 — the threshold step of the semantic branch -/

theorem sorted_simDesc_head_max {r0 : Scored} {rest : List Scored}
    (hs : List.Sorted simDescRel (r0 :: rest)) :
    ∀ r ∈ r0 :: rest, r.similarity ≤ r0.similarity := by
  intro r hr
  rcases List.mem_cons.mp hr with h | h
  · exact h ▸ le_refl _
  · exact (List.pairwise_cons.mp hs).1 r h

/-- C2: on a descending-sorted CLIP result list with the dynamic
threshold τ: (1) if some result exceeds τ, the step returns the > τ
results, up to `k`, still in descending order; (2) if none exceeds τ but
the list is non-empty and its top raw score is ≥ 0.20, exactly the top
result is returned; (3) if the top raw score is below 0.20 the step
returns the empty list. -/
theorem C2_threshold_step (s : String) (rs : List Scored) (k : ℕ)
    (hs : List.Sorted simDescRel rs) :
    ((∃ r ∈ rs, get_dynamic_threshold s < r.similarity) →
      threshold_step rs (get_dynamic_threshold s) k =
        (rs.filter (fun r => get_dynamic_threshold s < r.similarity)).take k ∧
      List.Sorted simDescRel (threshold_step rs (get_dynamic_threshold s) k)) ∧
    (∀ r0 rest, rs = r0 :: rest →
      (∀ r ∈ rs, r.similarity ≤ get_dynamic_threshold s) →
      (0.20 : ℚ) ≤ r0.similarity →
      threshold_step rs (get_dynamic_threshold s) k = [r0]) ∧
    (∀ r0 rest, rs = r0 :: rest → r0.similarity < (0.20 : ℚ) →
      threshold_step rs (get_dynamic_threshold s) k = []) := by
  set τ := get_dynamic_threshold s with hτ
  refine ⟨?_, ?_, ?_⟩
  · rintro ⟨r, hr, hgt⟩
    have hne : (rs.filter (fun r => τ < r.similarity)) ≠ [] := by
      intro hnil
      have : r ∈ rs.filter (fun r => τ < r.similarity) :=
        List.mem_filter.mpr ⟨hr, by simpa using hgt⟩
      simp [hnil] at this
    have hstep : threshold_step rs τ k =
        (rs.filter (fun r => τ < r.similarity)).take k := by
      cases rs with
      | nil => simp at hr
      | cons r0 rest =>
        simp only [threshold_step]
        rw [if_neg (by simpa using hne)]
    refine ⟨hstep, ?_⟩
    rw [hstep]
    exact hs.sublist ((List.take_sublist _ _).trans (List.filter_sublist _))
  · rintro r0 rest rfl hle h02
    have hnil : ((r0 :: rest).filter (fun r => τ < r.similarity)) = [] := by
      apply List.filter_eq_nil_iff.mpr
      intro r hr
      simpa using not_lt.mpr (hle r hr)
    simp only [threshold_step]
    rw [if_pos (by simpa using hnil), if_pos h02]
  · rintro r0 rest rfl hlt
    have hle' : ∀ r ∈ r0 :: rest, r.similarity ≤ τ := by
      intro r hr
      calc r.similarity ≤ r0.similarity := sorted_simDesc_head_max hs r hr
      _ ≤ τ := le_trans (le_of_lt hlt) (by rw [hτ]; exact get_dynamic_threshold_ge s)
    have hnil : ((r0 :: rest).filter (fun r => τ < r.similarity)) = [] := by
      apply List.filter_eq_nil_iff.mpr
      intro r hr
      simpa using not_lt.mpr (hle' r hr)
    simp only [threshold_step]
    rw [if_pos (by simpa using hnil), if_neg (not_le.mpr hlt)]

/-- Witness for C2: a concrete sorted result list whose top passes the
default threshold. -/
theorem C2_threshold_step_witness :
    List.Sorted simDescRel [⟨1, 1⟩, ⟨2, 0⟩] ∧
    threshold_step [⟨1, 1⟩, ⟨2, 0⟩] (get_dynamic_threshold "sunset") 5 =
      (([⟨1, 1⟩, ⟨2, 0⟩] : List Scored).filter
        (fun r => get_dynamic_threshold "sunset" < r.similarity)).take 5 := by
  have h1 : (food_keywords.any fun kw => strHas (lowerStr "sunset") kw) = false := by decide
  have h2 : (person_keywords.any fun kw => strHas (lowerStr "sunset") kw) = false := by decide
  have h3 : (place_keywords.any fun kw => strHas (lowerStr "sunset") kw) = false := by decide
  have h4 : (activity_keywords.any fun kw => strHas (lowerStr "sunset") kw) = false := by decide
  have hτ : get_dynamic_threshold "sunset" = 0.26 := by
    simp only [get_dynamic_threshold, h1, h2, h3, h4]
    norm_num [thresholds_default]
  have hs : List.Sorted simDescRel [⟨1, 1⟩, ⟨2, 0⟩] := by
    norm_num [List.sorted_cons, simDescRel]
  exact ⟨hs,
    ((C2_threshold_step "sunset" [⟨1, 1⟩, ⟨2, 0⟩] 5 hs).1
      ⟨⟨1, 1⟩, by simp, by rw [hτ]; norm_num⟩).1⟩

end Picta

namespace Picta

open SearchEngine

/-! # Claims C4 and C8 — the index build -/

theorem scanned_rows_ids_sublist (images : List (ImageRow ℚ)) :
    ((scanned_rows images).map (·.1)).Sublist (images.map (·.id)) := by
  induction images with
  | nil => simp [scanned_rows]
  | cons r t ih =>
    cases h : r.clip_vector with
    | none =>
      simpa [scanned_rows, List.filterMap_cons, h] using ih.cons r.id
    | some v =>
      simpa [scanned_rows, List.filterMap_cons, h] using ih.cons₂ r.id

/-- The build's case analysis, in closed form. -/
theorem build_faiss_index_eq (images : List (ImageRow ℚ)) (dim : ℕ)
    (prev : Option (List (List ℚ)) × List ℤ) :
    build_faiss_index images dim prev =
      if scanned_rows images = [] then prev
      else if valid_rows images dim = [] then (prev.1, [])
      else (some ((valid_rows images dim).map (·.2)),
        (valid_rows images dim).map (·.1)) := by
  show (if (scanned_rows images).isEmpty then prev
      else if (valid_rows images dim).isEmpty then (prev.1, [])
      else (some ((valid_rows images dim).map (·.2)),
        (valid_rows images dim).map (·.1))) = _
  simp only [List.isEmpty_iff]

/-- C4 (amended): the index build checks only the decoded vector length
against `D`: the id mapping after a build from scratch is exactly the
ids of the rows with a length-`D` embedding, every vector added to the
index has length `D`, and a scanned row of any other length is skipped —
but the L2 norm is never examined (see the counterexample). -/
theorem C4_index_build (images : List (ImageRow ℚ)) (dim : ℕ)
    (h : (images.map (·.id)).Nodup) :
    (build_faiss_index images dim (none, [])).2 =
      (valid_rows images dim).map (·.1) ∧
    (∀ v ∈ (build_faiss_index images dim (none, [])).1.getD [],
      v.length = dim) ∧
    (∀ p ∈ scanned_rows images, p.2.length ≠ dim →
      p.1 ∉ (build_faiss_index images dim (none, [])).2) := by
  rw [build_faiss_index_eq]
  by_cases h1 : scanned_rows images = []
  · refine ⟨by simp [valid_rows, h1], by simp [h1], ?_⟩
    intro p hp
    rw [h1] at hp
    cases hp
  · by_cases h2 : valid_rows images dim = []
    · refine ⟨by simp [h1, h2], by simp [h1, h2], ?_⟩
      simp [h1, h2]
    · refine ⟨by simp [h1, h2], ?_, ?_⟩
      · intro v hv
        simp only [h1, h2, if_neg, if_false, Option.getD_some] at hv
        obtain ⟨p, hp, rfl⟩ := List.mem_map.mp hv
        exact of_decide_eq_true (List.mem_filter.mp hp).2
      · intro p hp hlen hmem
        simp only [h1, h2, if_neg, if_false] at hmem
        obtain ⟨q, hq, hqp⟩ := List.mem_map.mp hmem
        have hqs : q ∈ scanned_rows images := (List.mem_filter.mp hq).1
        have hnd : ((scanned_rows images).map (·.1)).Nodup :=
          h.sublist (scanned_rows_ids_sublist images)
        have heq : q = p := List.inj_on_of_nodup_map hnd hqs hp hqp
        exact hlen (heq ▸ of_decide_eq_true (List.mem_filter.mp hq).2)

/-- Witness for C4: the zero vector of length 2 was added to the index
built over the zero-photo store, and indeed has length 2. -/
theorem C4_index_build_witness :
    (exEngineZero.images.map (·.id)).Nodup ∧
    [(0 : ℚ), 0] ∈ (build_faiss_index exEngineZero.images 2 (none, [])).1.getD [] ∧
    [(0 : ℚ), 0].length = 2 := by
  have hm : (build_faiss_index exEngineZero.images 2 (none, [])).1.getD []
      = [[(0 : ℚ), 0]] := rfl
  have hmem : [(0 : ℚ), 0] ∈
      (build_faiss_index exEngineZero.images 2 (none, [])).1.getD [] := by
    rw [hm]; exact List.mem_singleton.mpr rfl
  exact ⟨by decide, hmem,
    (C4_index_build exEngineZero.images 2 (by decide)).2.1 [0, 0] hmem⟩

/-- C4 counterexample: `encode_image`'s failure value — the all-zeros
vector — is stored unchanged by `save_image` and admitted by the index
build (its id enters the mapping), although its L2 norm is 0, far
outside [1 − 10⁻³, 1 + 10⁻³]: the store and the build never check the
norm. -/
theorem C4_norm_not_checked_counterexample :
    (save_image [] "broken.jpg" (encode_image 2 none) {}).1 =
      [{ id := 1, file_path := "broken.jpg", clip_vector := some [0, 0] }] ∧
    (build_faiss_index (save_image [] "broken.jpg" (encode_image 2 none) {}).1
      2 (none, [])).2 = [1] ∧
    normSq [(0 : ℚ), 0] = 0 ∧
    ¬(((1 : ℚ) - 1/1000) ^ 2 ≤ normSq [(0 : ℚ), 0]) := by
  refine ⟨rfl, rfl, ?_, ?_⟩
  · norm_num [normSq]
  · norm_num [normSq]

/-- C8 (amended): after a rebuild that scans at least one row with a
valid-length embedding, the id mapping is (a permutation of — in fact
equal to) the list of valid rows' ids and the index holds exactly that
many vectors.  When no scanned row survives, the previous index is left
in place (see the counterexample). -/
theorem C8_rebuild_sync (e : Engine)
    (h : valid_rows e.images e.vector_dim ≠ []) :
    (rebuild_index e).id_mapping =
      (valid_rows e.images e.vector_dim).map (·.1) ∧
    ((rebuild_index e).id_mapping).Perm
      ((valid_rows e.images e.vector_dim).map (·.1)) ∧
    ∃ vs, (rebuild_index e).faiss_index = some vs ∧
      vs.length = (valid_rows e.images e.vector_dim).length := by
  have h1 : ¬scanned_rows e.images = [] := by
    intro hemp
    apply h
    simp [valid_rows, hemp]
  unfold rebuild_index
  rw [build_faiss_index_eq]
  rw [if_neg h1, if_neg h]
  exact ⟨rfl, List.Perm.refl _, _, rfl, by simp⟩

/-- Witness for C8 on the concrete one-row engine. -/
theorem C8_rebuild_sync_witness :
    valid_rows exEngineStale.images exEngineStale.vector_dim ≠ [] ∧
    (rebuild_index exEngineStale).id_mapping =
      (valid_rows exEngineStale.images exEngineStale.vector_dim).map (·.1) :=
  ⟨by decide, (C8_rebuild_sync exEngineStale (by decide)).1⟩

/-- C8 counterexample: rebuilding after every row was deleted leaves the
stale index and id mapping in place — the index then has 1 vector and a
stale id although the store holds 0 rows with valid embeddings. -/
theorem C8_rebuild_counterexample :
    valid_rows ([] : List (ImageRow ℚ)) 2 = [] ∧
    (rebuild_index { rebuild_index exEngineStale with images := [] }).id_mapping
      = [1] ∧
    (rebuild_index { rebuild_index exEngineStale with images := [] }).faiss_index
      = some [[1, 0]] :=
  ⟨rfl, rfl, rfl⟩

end Picta

namespace Picta

open SearchEngine

/-! # Claim C5 — the hybrid location filter -/

theorem filter_by_gps_nil_cands (images : List (ImageRow ℚ))
    (loc : LocationData) : filter_by_gps images [] loc = [] := by
  cases h : loc.coordinates <;> simp [filter_by_gps, h]

theorem filter_by_gps_coords_none (images : List (ImageRow ℚ))
    (cands : List ℤ) (loc : LocationData) (h : loc.coordinates = none) :
    filter_by_gps images cands loc = [] := by
  unfold filter_by_gps
  rw [h]

theorem filter_by_gps_eq_some {images : List (ImageRow ℚ)} {cands : List ℤ}
    {loc : LocationData} {c : Coordinates} (hco : loc.coordinates = some c)
    (hc : cands ≠ []) :
    filter_by_gps images cands loc =
      ((images.filter (fun r => cands.contains r.id && r.gps_lat.isSome &&
          r.gps_lon.isSome)).filter
        (fun r => decide (haversine_distance c.lat c.lon (r.gps_lat.getD 0)
          (r.gps_lon.getD 0) ≤ ((c.radius_km.getD 5 : ℚ) : ℝ)))).map (·.id) := by
  unfold filter_by_gps
  rw [hco]
  exact if_neg hc

theorem filter_by_gps_mem {images : List (ImageRow ℚ)} {cands : List ℤ}
    {loc : LocationData} {i : ℤ}
    (h : i ∈ filter_by_gps images cands loc) :
    ∃ r ∈ images, r.id = i ∧ r.gps_lat.isSome = true := by
  rcases hco : loc.coordinates with _ | c
  · rw [filter_by_gps_coords_none _ _ _ hco] at h
    cases h
  · by_cases hc : cands = []
    · subst hc
      rw [filter_by_gps_nil_cands] at h
      cases h
    · rw [filter_by_gps_eq_some hco hc] at h
      obtain ⟨r, hr, rfl⟩ := List.mem_map.mp h
      have hr1 := List.mem_filter.mp (List.mem_filter.mp hr).1
      have hb := hr1.2
      simp only [Bool.and_eq_true] at hb
      exact ⟨r, hr1.1, rfl, hb.1.2⟩

theorem location_name_mem_iff (images : List (ImageRow ℚ)) (cands : List ℤ)
    (loc : LocationData) (i : ℤ) :
    i ∈ filter_by_location_name images cands loc ↔
      ∃ r ∈ images, r.id = i ∧ cands.contains i = true ∧
        r.gps_lat = none ∧ r.gps_lon = none ∧
        ∃ nm, r.location_name = some nm ∧
          ∃ nme ∈ loc.names.take 2, ∃ v ∈ normalize_korean_location nme,
            likeHas nm v = true := by
  unfold filter_by_location_name
  by_cases hc : cands = []
  · rw [if_pos hc]
    simp only [List.not_mem_nil, false_iff]
    rintro ⟨r, -, rfl, hcont, -⟩
    rw [hc] at hcont
    cases hcont
  · rw [if_neg hc]
    by_cases hn : loc.names = []
    · rw [if_pos hn]
      simp only [List.not_mem_nil, false_iff]
      rintro ⟨r, -, -, -, -, -, nm, -, nme, hnme, -⟩
      rw [hn] at hnme
      cases hnme
    · rw [if_neg hn]
      constructor
      · intro h
        obtain ⟨r, hr, rfl⟩ := List.mem_map.mp h
        have hr' := List.mem_filter.mp hr
        have hb := hr'.2
        simp only [Bool.and_eq_true] at hb
        obtain ⟨⟨⟨⟨hcont, hsome⟩, hlat⟩, hlon⟩, hany⟩ := hb
        obtain ⟨nm, hnm⟩ := Option.isSome_iff_exists.mp hsome
        obtain ⟨v, hv, hlike⟩ := List.any_eq_true.mp hany
        rw [List.mem_dedup, List.mem_flatMap] at hv
        obtain ⟨nme, hnme, hvn⟩ := hv
        refine ⟨r, hr'.1, rfl, hcont, Option.isNone_iff_eq_none.mp hlat,
          Option.isNone_iff_eq_none.mp hlon, nm, hnm, nme, hnme, v, hvn, ?_⟩
        rwa [hnm, Option.getD_some] at hlike
      · rintro ⟨r, hr, rfl, hcont, hlat, hlon, nm, hnm, nme, hnme, v, hvn, hlike⟩
        apply List.mem_map.mpr
        refine ⟨r, List.mem_filter.mpr ⟨hr, ?_⟩, rfl⟩
        simp only [Bool.and_eq_true]
        refine ⟨⟨⟨⟨hcont, by simp [hnm]⟩, by simp [hlat]⟩, by simp [hlon]⟩, ?_⟩
        apply List.any_eq_true.mpr
        refine ⟨v, ?_, by rwa [hnm, Option.getD_some]⟩
        rw [List.mem_dedup, List.mem_flatMap]
        exact ⟨nme, hnme, hvn⟩

/-- C5 (amended): the hybrid location filter returns the deduplicated
union of the GPS subset and the name subset, and the two subsets are
disjoint (the GPS subset requires GPS columns present, the name subset
requires them absent); the name subset matches, case-insensitively, at
least one variant of one of the *first two* of the plan's location
names (not of all of them — see the counterexample). -/
theorem C5_location_filter (images : List (ImageRow ℚ)) (cands : List ℤ)
    (loc : LocationData) (h : (images.map (·.id)).Nodup) :
    (filter_by_location_hybrid images cands loc).toFinset =
      (filter_by_gps images cands loc).toFinset ∪
        (filter_by_location_name images cands loc).toFinset ∧
    Disjoint ((filter_by_gps images cands loc).toFinset)
      ((filter_by_location_name images cands loc).toFinset) ∧
    (∀ i : ℤ, i ∈ filter_by_location_name images cands loc ↔
      ∃ r ∈ images, r.id = i ∧ cands.contains i = true ∧
        r.gps_lat = none ∧ r.gps_lon = none ∧
        ∃ nm, r.location_name = some nm ∧
          ∃ nme ∈ loc.names.take 2, ∃ v ∈ normalize_korean_location nme,
            likeHas nm v = true) := by
  refine ⟨?_, ?_, fun i => location_name_mem_iff images cands loc i⟩
  · by_cases hc : cands = []
    · subst hc
      simp [filter_by_location_hybrid, filter_by_gps_nil_cands,
        filter_by_location_name]
    · ext i
      simp [filter_by_location_hybrid, hc, List.mem_dedup, List.mem_append]
  · rw [Finset.disjoint_left]
    intro i hi hni
    rw [List.mem_toFinset] at hi hni
    obtain ⟨r, hr, hid, hsome⟩ := filter_by_gps_mem hi
    obtain ⟨r', hr', hid', -, hlat', -⟩ := (location_name_mem_iff _ _ _ _).mp hni
    have : r = r' := by
      apply List.inj_on_of_nodup_map h hr hr'
      show r.id = r'.id
      rw [hid, hid']
    rw [this, hlat'] at hsome
    cases hsome

/-- Witness for C5 at a concrete one-photo store. -/
theorem C5_location_filter_witness :
    (([exRowJeju] : List (ImageRow ℚ)).map (·.id)).Nodup ∧
    (filter_by_location_hybrid [exRowJeju] [3] { names := ["제주"] }).toFinset =
      (filter_by_gps [exRowJeju] [3] { names := ["제주"] }).toFinset ∪
        (filter_by_location_name [exRowJeju] [3] { names := ["제주"] }).toFinset :=
  ⟨by decide, (C5_location_filter [exRowJeju] [3] { names := ["제주"] } (by decide)).1⟩

/-- C5 counterexample: with three plan names of which only the third
matches the photo's `location_name`, the code's filter (first two names
only) returns nothing, while the claim's name subset (all names)
contains the photo. -/
theorem C5_first_two_names_counterexample :
    filter_by_location_hybrid [exRowJeju] [3]
      { names := ["a", "b", "제주"], coordinates := none } = [] ∧
    location_name_subset_claimed [exRowJeju] [3]
      { names := ["a", "b", "제주"], coordinates := none } = [3] := by
  constructor
  · rfl
  · rfl

end Picta

namespace Picta.SearchEngine

/-! # Plumbing lemmas for `search` -/

theorem mem_sort_by_sim_desc {l : List Scored} {r : Scored} :
    r ∈ sort_by_sim_desc l ↔ r ∈ l :=
  List.mem_insertionSort _

theorem sorted_sort_by_sim_desc (l : List Scored) :
    List.Sorted simDescRel (sort_by_sim_desc l) :=
  List.sorted_insertionSort _ _

theorem threshold_step_mem {rs : List Scored} {τ : ℚ} {k : ℕ} {r : Scored}
    (h : r ∈ threshold_step rs τ k) :
    r ∈ rs ∧ (τ < r.similarity ∨ (0.20 : ℚ) ≤ r.similarity) := by
  cases rs with
  | nil =>
    simp [threshold_step] at h
  | cons r0 rest =>
    simp only [threshold_step] at h
    split at h
    · split at h
      · rw [List.mem_singleton] at h
        subst h
        exact ⟨List.mem_cons_self _ _, Or.inr (by assumption)⟩
      · cases h
    · have hf := List.take_subset _ _ h
      have := List.mem_filter.mp hf
      exact ⟨this.1, Or.inl (of_decide_eq_true this.2)⟩

theorem filter_by_people_subset {faces : List FaceRow} {rs : List Scored}
    {ppl : List String} {r : Scored}
    (h : r ∈ filter_by_people faces rs ppl) : r ∈ rs := by
  unfold filter_by_people at h
  split at h
  · cases h
  · exact List.mem_of_mem_filter h

theorem enrich_results_mem {images : List (ImageRow ℚ)} {rs : List Scored}
    {x : Enriched} (h : x ∈ enrich_results images rs) :
    ∃ r ∈ rs, x.id = r.id ∧ x.similarity = r.similarity := by
  unfold enrich_results at h
  split at h
  · cases h
  · obtain ⟨r, hr, hx⟩ := List.mem_filterMap.mp h
    obtain ⟨row, -, hrow⟩ := Option.map_eq_some'.mp hx
    exact ⟨r, hr, by rw [← hrow], by rw [← hrow]⟩

theorem search_by_clip_faiss_spec {e : Engine} {s : String}
    {cs : List ℤ} {vecs : List (List ℚ)}
    (hfi : e.faiss_index = some vecs) (hmap : e.id_mapping ≠ []) :
    ∃ out, search_by_clip_faiss e s (some cs) = some out ∧
      (∀ r ∈ out, r.id ∈ cs) ∧ List.Sorted simDescRel out := by
  unfold search_by_clip_faiss
  rw [hfi]
  have hm : e.id_mapping.isEmpty = false := by
    cases hmp : e.id_mapping with
    | nil => exact absurd hmp hmap
    | cons a t => rfl
  rw [hm]
  refine ⟨_, rfl, ?_, sorted_sort_by_sim_desc _⟩
  intro r hr
  rw [mem_sort_by_sim_desc] at hr
  have := List.mem_filter.mp hr
  exact List.mem_of_elem_eq_true this.2

end Picta.SearchEngine

namespace Picta.SearchEngine

/-- Any result of a Branch-B (semantic, FAISS-path) `search` has its id
among the semantic candidates and similarity at least 0.20. -/
theorem search_branchB_results {e : Engine} {plan : QueryPlan} {k : ℕ}
    {vecs : List (List ℚ)} {res : List Enriched}
    (hfi : e.faiss_index = some vecs) (hmap : e.id_mapping ≠ [])
    (hA : (plan.location.isSome && (meaningful_keywords plan).isEmpty) = false)
    (hst : plan.search_text.isEmpty = false)
    (hres : search e plan k = some res) :
    ∀ x ∈ res,
      x.id ∈ semantic_candidates
        (plan.location.map (fun l => filter_by_location_hybrid e.images
          (filter_by_date e.images plan.time_range) l))
        (filter_by_date e.images plan.time_range) ∧
      (0.20 : ℚ) ≤ x.similarity := by
  obtain ⟨out, hout, hmem, hsorted⟩ :=
    @search_by_clip_faiss_spec e plan.search_text
      (semantic_candidates
        (plan.location.map (fun l => filter_by_location_hybrid e.images
          (filter_by_date e.images plan.time_range) l))
        (filter_by_date e.images plan.time_range)) vecs hfi hmap
  simp only [search] at hres
  split at hres
  · -- people filter skipped
    split at hres
    · rename_i h1
      rw [Bool.not_not, hA] at h1
      exact Bool.noConfusion h1
    · split at hres
      · rw [hout] at hres
        simp only [Option.map_some'] at hres
        have hres' := (Option.some.inj hres).symm
        intro x hx
        rw [hres'] at hx
        obtain ⟨r, hr, hid, hsim⟩ := enrich_results_mem hx
        obtain ⟨hro, hbound⟩ := threshold_step_mem hr
        refine ⟨hid ▸ hmem r hro, hsim ▸ ?_⟩
        rcases hbound with h | h
        · exact le_of_lt (lt_of_le_of_lt (get_dynamic_threshold_ge _) h)
        · exact h
      · rename_i h2
        rw [hst] at h2
        simp at h2
  · -- people filter applied
    split at hres
    · rename_i h1
      rw [Bool.not_not, hA] at h1
      exact Bool.noConfusion h1
    · split at hres
      · rw [hout] at hres
        simp only [Option.map_some'] at hres
        have hres' := (Option.some.inj hres).symm
        intro x hx
        rw [hres'] at hx
        obtain ⟨r, hr, hid, hsim⟩ := enrich_results_mem hx
        have hr' := filter_by_people_subset hr
        obtain ⟨hro, hbound⟩ := threshold_step_mem hr'
        refine ⟨hid ▸ hmem r hro, hsim ▸ ?_⟩
        rcases hbound with h | h
        · exact le_of_lt (lt_of_le_of_lt (get_dynamic_threshold_ge _) h)
        · exact h
      · rename_i h2
        rw [hst] at h2
        simp at h2

end Picta.SearchEngine

namespace Picta

open SearchEngine

/-! # Claim C1 — candidate selection in the semantic branch -/

theorem clip_faiss_exEngineA :
    search_by_clip_faiss exEngineA "beach" (some [1]) = some [⟨1, 1⟩] := by
  have hfi : exEngineA.faiss_index = some [[1, 0]] := rfl
  have hidm : exEngineA.id_mapping = [1] := rfl
  have hencode : exEngineA.encodeText "beach" = [1, 0] := rfl
  have hd : dot ([1, 0] : List ℚ) [1, 0] = 1 := by norm_num [dot]
  simp only [search_by_clip_faiss, hfi, hidm, hencode]
  norm_num [hd, sort_by_sim_desc, List.insertionSort, List.orderedInsert]

/-- Concrete evaluation: `search` on the one-photo engine with the
Jeju-location plan whose location set is empty returns the photo
(selected through `date_filtered`). -/
theorem search_exEngineA_exPlanB :
    search exEngineA exPlanB 10 = some [exEnriched1] := by
  have hmk : (exPlanB.location.isSome &&
      !!(meaningful_keywords exPlanB).isEmpty) = false := by decide
  have hst : (!exPlanB.search_text.isEmpty) = true := by decide
  have hpe : exPlanB.people.isEmpty = true := rfl
  have hC : semantic_candidates
      (Option.map (fun l => filter_by_location_hybrid exEngineA.images
        (filter_by_date exEngineA.images exPlanB.time_range) l) exPlanB.location)
      (filter_by_date exEngineA.images exPlanB.time_range) = [1] := rfl
  have hstx : exPlanB.search_text = "beach" := rfl
  have hτ : get_dynamic_threshold "beach" = 0.25 := by
    have p1 : (food_keywords.any fun kw => strHas (lowerStr "beach") kw) = false := by
      decide
    have p2 : (person_keywords.any fun kw => strHas (lowerStr "beach") kw) = false := by
      decide
    have p3 : (place_keywords.any fun kw => strHas (lowerStr "beach") kw) = true := by
      decide
    simp only [get_dynamic_threshold, p1, p2, p3]
    norm_num [thresholds_place]
  have hthr : threshold_step [⟨1, 1⟩] (get_dynamic_threshold "beach") 10 = [⟨1, 1⟩] := by
    rw [hτ]
    norm_num [threshold_step]
  have henr : enrich_results exEngineA.images [⟨1, 1⟩] = [exEnriched1] := rfl
  have hst2 : (!"beach".isEmpty) = true := by decide
  simp only [search, hmk, hst, hpe, Bool.false_eq_true, if_false, if_true, hC, hstx,
    clip_faiss_exEngineA, Option.map_some', hthr, henr, hst2, eq_self_iff_true]

/-- C1 (amended): in the semantic branch the ANN candidate set is
`loc_set` when the location-filtered set is non-empty, and falls back to
`date_set` both when the plan has no location *and* when the
location-filtered set is empty (Python truthiness of `[]`); every
returned result's id lies in that candidate set. -/
theorem C1_semantic_candidates (e : Engine) (plan : QueryPlan) (k : ℕ)
    {vecs : List (List ℚ)} {res : List Enriched}
    (hfi : e.faiss_index = some vecs) (hmap : e.id_mapping ≠ [])
    (hA : (plan.location.isSome && (meaningful_keywords plan).isEmpty) = false)
    (hst : plan.search_text.isEmpty = false)
    (hres : search e plan k = some res) :
    (∀ (l df : List ℤ), l ≠ [] → semantic_candidates (some l) df = l) ∧
    (∀ df : List ℤ, semantic_candidates (some []) df = df) ∧
    (∀ df : List ℤ, semantic_candidates none df = df) ∧
    (∀ x ∈ res, x.id ∈ semantic_candidates
        (plan.location.map (fun l => filter_by_location_hybrid e.images
          (filter_by_date e.images plan.time_range) l))
        (filter_by_date e.images plan.time_range)) := by
  refine ⟨?_, fun df => rfl, fun df => rfl, ?_⟩
  · intro l df hl
    simp [semantic_candidates, hl]
  · intro x hx
    exact (search_branchB_results hfi hmap hA hst hres x hx).1

/-- Witness for C1 at the concrete engine and plan. -/
theorem C1_semantic_candidates_witness :
    search exEngineA exPlanB 10 = some [exEnriched1] ∧
    ∀ x ∈ [exEnriched1], x.id ∈ semantic_candidates
        (exPlanB.location.map (fun l => filter_by_location_hybrid exEngineA.images
          (filter_by_date exEngineA.images exPlanB.time_range) l))
        (filter_by_date exEngineA.images exPlanB.time_range) :=
  ⟨search_exEngineA_exPlanB,
    (C1_semantic_candidates exEngineA exPlanB 10 rfl (by decide) (by decide)
      (by decide) search_exEngineA_exPlanB).2.2.2⟩

/-- C1 counterexample: the plan has a location, its location-filtered
set is empty, yet the semantic result is non-empty — the code's Python
truthiness test silently replaces an empty `loc_set` by `date_set`
instead of returning no results. -/
theorem C1_truthiness_counterexample :
    exPlanB.location.isSome = true ∧
    filter_by_location_hybrid exEngineA.images
      (filter_by_date exEngineA.images exPlanB.time_range)
      { names := ["제주"] } = [] ∧
    search exEngineA exPlanB 10 = some [exEnriched1] ∧
    ([exEnriched1] : List Enriched) ≠ [] := by
  refine ⟨rfl, rfl, search_exEngineA_exPlanB, by decide⟩

end Picta

namespace Picta

open SearchEngine

/-! # Claim C10 — the zero embedding -/

theorem clip_faiss_exEngineZero :
    search_by_clip_faiss exEngineZero "beach" (some [1]) = some [⟨1, 0⟩] := by
  have hfi : exEngineZero.faiss_index = some [[0, 0]] := rfl
  have hidm : exEngineZero.id_mapping = [1] := rfl
  have hencode : exEngineZero.encodeText "beach" = [1, 0] := rfl
  have hd : dot ([1, 0] : List ℚ) [0, 0] = 0 := by norm_num [dot]
  simp only [search_by_clip_faiss, hfi, hidm, hencode]
  norm_num [hd, sort_by_sim_desc, List.insertionSort, List.orderedInsert]

/-- Concrete evaluation: semantic search over the store holding only the
zero-embedding photo returns no results (its similarity 0 is below every
threshold and below the 0.20 fallback floor). -/
theorem search_exEngineZero_exPlanSem :
    search exEngineZero exPlanSem 10 = some [] := by
  have hmk : (exPlanSem.location.isSome &&
      !!(meaningful_keywords exPlanSem).isEmpty) = false := by decide
  have hpe : exPlanSem.people.isEmpty = true := rfl
  have hC : semantic_candidates
      (Option.map (fun l => filter_by_location_hybrid exEngineZero.images
        (filter_by_date exEngineZero.images exPlanSem.time_range) l)
        exPlanSem.location)
      (filter_by_date exEngineZero.images exPlanSem.time_range) = [1] := rfl
  have hstx : exPlanSem.search_text = "beach" := rfl
  have hτ : get_dynamic_threshold "beach" = 0.25 := by
    have p1 : (food_keywords.any fun kw => strHas (lowerStr "beach") kw) = false := by
      decide
    have p2 : (person_keywords.any fun kw => strHas (lowerStr "beach") kw) = false := by
      decide
    have p3 : (place_keywords.any fun kw => strHas (lowerStr "beach") kw) = true := by
      decide
    simp only [get_dynamic_threshold, p1, p2, p3]
    norm_num [thresholds_place]
  have hthr : threshold_step [⟨1, 0⟩] (get_dynamic_threshold "beach") 10 = [] := by
    rw [hτ]
    norm_num [threshold_step]
  have henr : enrich_results exEngineZero.images ([] : List Scored) = [] := rfl
  have hst2 : (!"beach".isEmpty) = true := by decide
  simp only [search, hmk, hpe, Bool.false_eq_true, if_false, if_true, hC, hstx,
    clip_faiss_exEngineZero, Option.map_some', hthr, henr, hst2, eq_self_iff_true]

/-- C10 (amended): a failed `encode_image` yields the all-zeros vector
of dimension `D`; `save_image` stores it unchanged; the index build
admits every valid-length row (only the length is checked), so the zero
photo enters the ANN index — but the zero vector's inner product with
every query is 0, while every Branch-B result has similarity ≥ 0.20, so
the zero photo never appears in semantic search results. -/
theorem C10_zero_embedding :
    (∀ d : ℕ, encode_image d none = List.replicate d 0) ∧
    (∀ (images : List (ImageRow ℚ)) (fp : String) (v : List ℚ) (md : SaveMeta),
      ∃ r : ImageRow ℚ, (save_image images fp v md).1.getLast? = some r ∧
        r.clip_vector = some v) ∧
    (∀ (images : List (ImageRow ℚ)) (dim : ℕ) (p : ℤ × List ℚ),
      p ∈ valid_rows images dim →
      p.1 ∈ (build_faiss_index images dim (none, [])).2) ∧
    (∀ (q : List ℚ) (d : ℕ), dot q (List.replicate d 0) = 0) ∧
    (∀ (e : Engine) (plan : QueryPlan) (k : ℕ) (vecs : List (List ℚ))
        (res : List Enriched),
      e.faiss_index = some vecs → e.id_mapping ≠ [] →
      (plan.location.isSome && (meaningful_keywords plan).isEmpty) = false →
      plan.search_text.isEmpty = false →
      search e plan k = some res →
      ∀ x ∈ res, (0.20 : ℚ) ≤ x.similarity) := by
  refine ⟨fun d => rfl, ?_, ?_, ?_, ?_⟩
  · intro images fp v md
    refine ⟨_, List.getLast?_concat _, rfl⟩
  · intro images dim p hp
    have hv : valid_rows images dim ≠ [] := by
      intro hnil
      rw [hnil] at hp
      cases hp
    have hr : scanned_rows images ≠ [] := by
      intro hnil
      apply hv
      simp [valid_rows, hnil]
    rw [build_faiss_index_eq, if_neg hr, if_neg hv]
    exact List.mem_map.mpr ⟨p, hp, rfl⟩
  · intro q d
    induction q generalizing d with
    | nil => simp [dot]
    | cons a t ih =>
      cases d with
      | zero => simp [dot]
      | succ d =>
        show (List.zipWith (· * ·) (a :: t) (List.replicate (d + 1) 0)).sum = 0
        rw [List.replicate_succ, List.zipWith_cons_cons, List.sum_cons, mul_zero,
          zero_add]
        exact ih d
  · intro e plan k vecs res hfi hmap hA hst hres x hx
    exact (search_branchB_results hfi hmap hA hst hres x hx).2

/-- Witness for C10: the similarity floor instantiated at a concrete
Branch-B search with a non-empty result. -/
theorem C10_zero_embedding_witness :
    search exEngineA exPlanB 10 = some [exEnriched1] ∧
    (0.20 : ℚ) ≤ exEnriched1.similarity :=
  ⟨search_exEngineA_exPlanB,
    C10_zero_embedding.2.2.2.2 exEngineA exPlanB 10 [[1, 0]] [exEnriched1] rfl
      (by decide) (by decide) (by decide) search_exEngineA_exPlanB exEnriched1
      (List.mem_singleton.mpr rfl)⟩

/-- C10 counterexample (to the claim's final clause): the zero-embedding
photo is stored, indexed (its id is in the mapping), yet a semantic
search over the corpus returns the empty result list — it cannot appear
in semantic search results. -/
theorem C10_zero_in_index_counterexample :
    encode_image 2 none = [0, 0] ∧
    (1 : ℤ) ∈ exEngineZero.id_mapping ∧
    search exEngineZero exPlanSem 10 = some [] :=
  ⟨rfl, by decide, search_exEngineZero_exPlanSem⟩

end Picta

namespace Picta.SearchEngine

/-! # Helper lemmas for Branch A -/

theorem find?_eq_self_of_nodup {images : List (ImageRow ℚ)}
    (hnd : (images.map (·.id)).Nodup) {r : ImageRow ℚ} (hr : r ∈ images) :
    images.find? (fun x => x.id = r.id) = some r := by
  induction images with
  | nil => cases hr
  | cons a t ih =>
    simp only [List.map_cons, List.nodup_cons] at hnd
    rcases List.mem_cons.mp hr with rfl | hrt
    · rw [List.find?_cons_of_pos _ (by simp)]
    · have hne : ¬a.id = r.id := by
        intro he
        exact hnd.1 (he ▸ List.mem_map.mpr ⟨r, hrt, rfl⟩)
      rw [List.find?_cons_of_neg _ (by simp [hne])]
      exact ih hnd.2 hrt

theorem length_filter_contains {images : List (ImageRow ℚ)} {ids : List ℤ}
    (hnd : (images.map (·.id)).Nodup) (hids : ids.Nodup)
    (hsub : ∀ i ∈ ids, i ∈ images.map (·.id)) :
    (images.filter (fun r => ids.contains r.id)).length = ids.length := by
  have h1 : ((images.filter (fun r => ids.contains r.id)).map (·.id)).Nodup :=
    hnd.sublist ((List.filter_sublist _).map _)
  have h2 : ((images.filter (fun r => ids.contains r.id)).map (·.id)).toFinset
      = ids.toFinset := by
    ext i
    simp only [List.mem_toFinset, List.mem_map]
    constructor
    · rintro ⟨r, hr, rfl⟩
      exact List.mem_of_elem_eq_true (List.mem_filter.mp hr).2
    · intro hi
      obtain ⟨r, hr, hri⟩ := List.mem_map.mp (hsub i hi)
      refine ⟨r, List.mem_filter.mpr ⟨hr, ?_⟩, hri⟩
      rw [hri]
      exact List.elem_eq_true_of_mem hi
  have hperm := List.perm_of_nodup_nodup_toFinset_eq h1 hids h2
  have := hperm.length_eq
  rwa [List.length_map] at this

theorem enrich_results_eq_filterMap (images : List (ImageRow ℚ))
    (rs : List Scored) :
    enrich_results images rs = rs.filterMap (fun res =>
      (images.find? (fun r => r.id = res.id)).map (fun row =>
        { id := res.id
          file_path := row.file_path
          thumbnail_path := row.thumbnail_path
          taken_date := row.taken_date
          location_name := row.location_name
          metadata := row.metadata
          similarity := res.similarity })) := by
  cases rs with
  | nil => rfl
  | cons r t => rfl

/-- Enriching the `similarity = 1` scored list built from rows of the
store recovers those rows. -/
theorem enrich_map_rows {images : List (ImageRow ℚ)}
    (hnd : (images.map (·.id)).Nodup) {rows : List (ImageRow ℚ)}
    (hsub : ∀ r ∈ rows, r ∈ images) :
    enrich_results images (rows.map (fun r => (⟨r.id, 1⟩ : Scored))) =
      rows.map (fun r =>
        ({ id := r.id
           file_path := r.file_path
           thumbnail_path := r.thumbnail_path
           taken_date := r.taken_date
           location_name := r.location_name
           metadata := r.metadata
           similarity := 1 } : Enriched)) := by
  rw [enrich_results_eq_filterMap, List.filterMap_map]
  induction rows with
  | nil => rfl
  | cons r t ih =>
    have hf := find?_eq_self_of_nodup hnd (hsub r (List.mem_cons_self _ _))
    simp only [List.filterMap_cons, Function.comp_apply, hf, Option.map_some']
    rw [ih (fun x hx => hsub x (List.mem_cons_of_mem _ hx)), List.map_cons]

theorem hybrid_nodup (images : List (ImageRow ℚ)) (cands : List ℤ)
    (loc : LocationData) :
    (filter_by_location_hybrid images cands loc).Nodup := by
  unfold filter_by_location_hybrid
  split
  · exact List.nodup_nil
  · exact List.nodup_dedup _

theorem hybrid_subset_ids (images : List (ImageRow ℚ)) (cands : List ℤ)
    (loc : LocationData) :
    ∀ i ∈ filter_by_location_hybrid images cands loc, i ∈ images.map (·.id) := by
  intro i hi
  unfold filter_by_location_hybrid at hi
  split at hi
  · cases hi
  · rw [List.mem_dedup, List.mem_append] at hi
    rcases hi with hg | hn
    · obtain ⟨r, hr, hid, -⟩ := filter_by_gps_mem hg
      exact List.mem_map.mpr ⟨r, hr, hid⟩
    · obtain ⟨r, hr, hid, -⟩ := (location_name_mem_iff _ _ _ _).mp hn
      exact List.mem_map.mpr ⟨r, hr, hid⟩

/-- Branch A of `search`, in closed form. -/
theorem search_branchA_eq (e : Engine) (plan : QueryPlan) (k : ℕ)
    (loc : LocationData) (hloc : plan.location = some loc)
    (hkw : meaningful_keywords plan = []) (hpe : plan.people = []) :
    search e plan k = some (enrich_results e.images
      (if (filter_by_location_hybrid e.images
            (filter_by_date e.images plan.time_range) loc).isEmpty
       then []
       else (sort_by_date_desc e.images (filter_by_location_hybrid e.images
         (filter_by_date e.images plan.time_range) loc) k).map
           (fun id => ⟨id, 1⟩))) := by
  simp only [search, hloc, hkw, hpe, Option.isSome_some, List.isEmpty_nil,
    Bool.not_true, Bool.not_false, Bool.and_true, Bool.true_and, if_true,
    eq_self_iff_true, Option.map_some']

end Picta.SearchEngine

namespace Picta

open SearchEngine

/-! # Claim C3 — Branch A (location-only search) -/

/-- C3: with a location present, no meaningful keywords and no people
filter, `search` is independent of the text encoder and the ANN index
(no embedding or ANN call), and returns the `min k |loc_set|` photos of
the location-filtered set ordered by `taken_date` descending, each with
similarity 1.0; an empty location-filtered set yields the empty result. -/
theorem C3_location_only (e : Engine) (plan : QueryPlan) (k : ℕ)
    (loc : LocationData)
    (hnd : (e.images.map (·.id)).Nodup)
    (hloc : plan.location = some loc)
    (hkw : meaningful_keywords plan = [])
    (hpe : plan.people = []) :
    (∀ (enc : String → List ℚ) (fi : Option (List (List ℚ))) (im : List ℤ),
      search { e with encodeText := enc, faiss_index := fi, id_mapping := im }
        plan k = search e plan k) ∧
    ∃ res, search e plan k = some res ∧
      (∀ x ∈ res, x.similarity = 1) ∧
      (∀ x ∈ res, x.id ∈ filter_by_location_hybrid e.images
        (filter_by_date e.images plan.time_range) loc) ∧
      res.length = min k (filter_by_location_hybrid e.images
        (filter_by_date e.images plan.time_range) loc).length ∧
      List.Pairwise (fun x y : Enriched => optDateGe x.taken_date y.taken_date)
        res ∧
      (filter_by_location_hybrid e.images
        (filter_by_date e.images plan.time_range) loc = [] → res = []) := by
  constructor
  · intro enc fi im
    rw [search_branchA_eq
        { e with encodeText := enc, faiss_index := fi, id_mapping := im }
        plan k loc hloc hkw hpe,
      search_branchA_eq e plan k loc hloc hkw hpe]
  · by_cases h0 : filter_by_location_hybrid e.images
        (filter_by_date e.images plan.time_range) loc = []
    · refine ⟨[], ?_, by simp, by simp, by simp [h0], List.Pairwise.nil,
        fun _ => rfl⟩
      rw [search_branchA_eq e plan k loc hloc hkw hpe, h0]
      simp [enrich_results]
    · have hlfE : (filter_by_location_hybrid e.images
          (filter_by_date e.images plan.time_range) loc).isEmpty = false := by
        cases hl : filter_by_location_hybrid e.images
            (filter_by_date e.images plan.time_range) loc with
        | nil => exact absurd hl h0
        | cons a t => rfl
      have hsub' : ∀ r ∈ ((e.images.filter (fun r =>
          (filter_by_location_hybrid e.images
            (filter_by_date e.images plan.time_range) loc).contains
              r.id)).insertionSort dateDescRel).take k, r ∈ e.images := by
        intro r hr
        exact List.mem_of_mem_filter
          ((List.perm_insertionSort dateDescRel _).mem_iff.mp
            (List.take_subset _ _ hr))
      refine ⟨(((e.images.filter (fun r =>
          (filter_by_location_hybrid e.images
            (filter_by_date e.images plan.time_range) loc).contains
              r.id)).insertionSort dateDescRel).take k).map (fun r =>
        ({ id := r.id
           file_path := r.file_path
           thumbnail_path := r.thumbnail_path
           taken_date := r.taken_date
           location_name := r.location_name
           metadata := r.metadata
           similarity := 1 } : Enriched)),
        ?_, ?_, ?_, ?_, ?_, fun hc => absurd hc h0⟩
      · rw [search_branchA_eq e plan k loc hloc hkw hpe]
        simp only [hlfE, Bool.false_eq_true, if_false]
        unfold sort_by_date_desc
        rw [if_neg h0, List.map_map]
        simp only [Function.comp_def]
        rw [enrich_map_rows hnd hsub']
      · intro x hx
        obtain ⟨r, -, rfl⟩ := List.mem_map.mp hx
        rfl
      · intro x hx
        obtain ⟨r, hr, rfl⟩ := List.mem_map.mp hx
        have hrf := (List.perm_insertionSort dateDescRel _).mem_iff.mp
          (List.take_subset _ _ hr)
        exact List.mem_of_elem_eq_true (List.mem_filter.mp hrf).2
      · rw [List.length_map, List.length_take, List.length_insertionSort,
          length_filter_contains hnd
            (hybrid_nodup e.images (filter_by_date e.images plan.time_range) loc)
            (hybrid_subset_ids e.images
              (filter_by_date e.images plan.time_range) loc)]
      · refine List.Pairwise.map _ (fun a b h => h) ?_
        exact (List.sorted_insertionSort dateDescRel _).sublist
          (List.take_sublist _ _)

/-- Witness for C3 at the one-photo Jeju engine and the location-only
plan (generic keywords 여행/사진 only). -/
theorem C3_location_only_witness :
    ((exEngineJeju.images.map (·.id)).Nodup) ∧
    meaningful_keywords exPlanA = [] ∧
    ∃ res, search exEngineJeju exPlanA 10 = some res ∧
      ∀ x ∈ res, x.similarity = 1 := by
  refine ⟨by decide, by decide, ?_⟩
  obtain ⟨-, res, hres, hsim, -⟩ :=
    C3_location_only exEngineJeju exPlanA 10 { names := ["제주"] }
      (by decide) rfl (by decide) rfl
  exact ⟨res, hres, hsim⟩

end Picta

namespace Picta.VisualSearchEngine

/-! # Helper lemmas for the visual engine -/

theorem sumSq_nonneg (v : List ℝ) : 0 ≤ sumSq v := by
  unfold sumSq
  apply List.sum_nonneg
  intro x hx
  obtain ⟨a, -, rfl⟩ := List.mem_map.mp hx
  positivity

/-- Cauchy–Schwarz for list inner products (lists may have different
lengths; `zipWith` truncates). -/
theorem dotR_sq_le (u v : List ℝ) : (dotR u v) ^ 2 ≤ sumSq u * sumSq v := by
  induction u generalizing v with
  | nil =>
    simp [dotR, sumSq]
  | cons a u ih =>
    cases v with
    | nil =>
      simp [dotR, sumSq]
    | cons b v =>
      have h := ih v
      have hA : 0 ≤ sumSq u := sumSq_nonneg u
      have hB : 0 ≤ sumSq v := sumSq_nonneg v
      have hs : dotR (a :: u) (b :: v) = a * b + dotR u v := by
        simp [dotR]
      have hsu : sumSq (a :: u) = a ^ 2 + sumSq u := by simp [sumSq]
      have hsv : sumSq (b :: v) = b ^ 2 + sumSq v := by simp [sumSq]
      rw [hs, hsu, hsv]
      rcases eq_or_lt_of_le hB with hB0 | hBpos
      · have hs0 : dotR u v = 0 := by
          have h1 : (dotR u v) ^ 2 ≤ 0 := by rw [← hB0] at h; simpa using h
          have h2 : (0 : ℝ) ≤ (dotR u v) ^ 2 := sq_nonneg _
          have : (dotR u v) ^ 2 = 0 := le_antisymm h1 h2
          exact pow_eq_zero_iff (two_ne_zero) |>.mp this
        rw [hs0, ← hB0]
        nlinarith [mul_nonneg hA (sq_nonneg b)]
      · nlinarith [sq_nonneg (a * sumSq v - b * dotR u v),
          mul_nonneg (sub_nonneg.mpr h) (sq_nonneg b),
          mul_nonneg (sub_nonneg.mpr h) (le_of_lt hBpos)]

theorem sumSq_map_div (v : List ℝ) (c : ℝ) :
    sumSq (v.map (fun x => x / c)) = sumSq v / c ^ 2 := by
  induction v with
  | nil => simp [sumSq]
  | cons a t ih =>
    simp only [sumSq, List.map_cons, List.sum_cons] at ih ⊢
    rw [ih, div_pow, add_div]

theorem sumSq_normalize_le_one (v : List ℝ) : sumSq (normalize_L2 v) ≤ 1 := by
  unfold normalize_L2
  rw [sumSq_map_div]
  rcases eq_or_lt_of_le (sumSq_nonneg v) with h0 | hpos
  · rw [← h0]
    simp
  · rw [Real.sq_sqrt (le_of_lt hpos), div_self (ne_of_gt hpos)]

theorem dotR_normalized_bounds (u v : List ℝ) :
    -1 ≤ dotR (normalize_L2 u) (normalize_L2 v) ∧
      dotR (normalize_L2 u) (normalize_L2 v) ≤ 1 := by
  have h := dotR_sq_le (normalize_L2 u) (normalize_L2 v)
  have h1 := sumSq_normalize_le_one u
  have h2 := sumSq_normalize_le_one v
  have hn1 := sumSq_nonneg (normalize_L2 u)
  have hn2 := sumSq_nonneg (normalize_L2 v)
  have hb : (dotR (normalize_L2 u) (normalize_L2 v)) ^ 2 ≤ 1 := by nlinarith
  constructor
  · nlinarith [sq_nonneg (dotR (normalize_L2 u) (normalize_L2 v) + 1)]
  · nlinarith [sq_nonneg (dotR (normalize_L2 u) (normalize_L2 v) - 1)]

/-- The visual index build, in closed form. -/
theorem build_index_eq (images : List (ImageRow ℝ))
    (prev : Option (List (List ℝ)) × List ℤ) :
    build_index images prev =
      if images.filterMap (fun r => r.clip_vector.map (fun v => (r.id, v))) = []
      then prev
      else (some ((images.filterMap (fun r =>
          r.clip_vector.map (fun v => (r.id, v)))).map (fun p => normalize_L2 p.2)),
        (images.filterMap (fun r => r.clip_vector.map (fun v => (r.id, v)))).map
          (·.1)) := by
  show (if (images.filterMap (fun r =>
      r.clip_vector.map (fun v => (r.id, v)))).isEmpty then prev else _) = _
  simp only [List.isEmpty_iff]

theorem filterMap_clip_ids_sublist {α : Type} (images : List (ImageRow α)) :
    (((images.filterMap (fun r => r.clip_vector.map (fun v => (r.id, v)))).map
      (·.1))).Sublist (images.map (·.id)) := by
  induction images with
  | nil => simp
  | cons r t ih =>
    cases h : r.clip_vector with
    | none =>
      simpa [List.filterMap_cons, h] using ih.cons r.id
    | some v =>
      simpa [List.filterMap_cons, h] using ih.cons₂ r.id

theorem filterMap_clip_length {α : Type} (images : List (ImageRow α)) :
    (images.filterMap (fun r => r.clip_vector.map (fun v => (r.id, v)))).length =
      (images.filter (fun r => r.clip_vector.isSome)).length := by
  induction images with
  | nil => rfl
  | cons r t ih =>
    cases h : r.clip_vector with
    | none => simp [List.filterMap_cons, h, ih]
    | some v => simp [List.filterMap_cons, h, ih]

theorem length_filter_fst_le_one {l : List (ℤ × ℝ)} (x : ℤ)
    (h : (l.map Prod.fst).Nodup) :
    (l.filter (fun a => a.1 = x)).length ≤ 1 := by
  rcases hf : l.filter (fun a => a.1 = x) with _ | ⟨a, _ | ⟨b, t⟩⟩
  · simp [hf]
  · simp [hf]
  · exfalso
    have hsub : (a :: b :: t).Sublist l := hf ▸ List.filter_sublist l
    have hnd2 := h.sublist (hsub.map Prod.fst)
    have hmemf : ∀ y ∈ l.filter (fun a => a.1 = x), y.1 = x := fun y hy =>
      of_decide_eq_true (List.mem_filter.mp hy).2
    have ha : a.1 = x := hmemf a (hf ▸ List.mem_cons_self _ _)
    have hb : b.1 = x := hmemf b (hf ▸ List.mem_cons_of_mem _ (List.mem_cons_self _ _))
    simp only [List.map_cons, List.nodup_cons] at hnd2
    exact hnd2.1 (by rw [ha, hb]; exact List.mem_cons_self _ _)

theorem length_filterMap_of_all_some {α β : Type} (f : α → Option β)
    {l : List α} (h : ∀ a ∈ l, (f a).isSome = true) :
    (l.filterMap f).length = l.length := by
  induction l with
  | nil => rfl
  | cons a t ih =>
    rw [List.filterMap_cons]
    cases hfa : f a with
    | none =>
      have hh := h a (List.mem_cons_self _ _)
      rw [hfa] at hh
      simp at hh
    | some b =>
      simp only [List.length_cons]
      rw [ih (fun x hx => h x (List.mem_cons_of_mem _ hx))]

theorem pairwise_filterMap_of_pairwise {α β : Type} {R : α → α → Prop}
    {S : β → β → Prop} (f : α → Option β)
    (H : ∀ a a' b b', f a = some b → f a' = some b' → R a a' → S b b')
    {l : List α} (h : List.Pairwise R l) : List.Pairwise S (l.filterMap f) := by
  induction l with
  | nil => simp
  | cons a t ih =>
    rw [List.filterMap_cons]
    rcases List.pairwise_cons.mp h with ⟨ha, ht⟩
    cases hfa : f a with
    | none => exact ih ht
    | some b =>
      apply List.pairwise_cons.mpr
      refine ⟨?_, ih ht⟩
      intro b' hb'
      obtain ⟨a', ha', hfa'⟩ := List.mem_filterMap.mp hb'
      exact H a a' b b' hfa hfa' (ha a' ha')

/-- `find_similar_by_image` on a built engine, in closed form. -/
theorem find_similar_eq (e : VEngine) (image_id : ℤ) (top_k : ℕ)
    {vecs : List (List ℝ)} {qv : List ℝ}
    (hfi : e.faiss_index = some vecs)
    (hq : get_vector e.images image_id = some qv) :
    find_similar_by_image e image_id top_k true =
      ((((sort_score_desc ((e.id_mapping.zip vecs).map
          (fun p => (p.1, dotR (normalize_L2 qv) p.2)))).take (top_k + 1)).filter
        (fun p => p.1 ≠ image_id)).filterMap (fun p =>
          (get_image_info e.images p.1).map (fun info => (info, p.2)))).take
        top_k := by
  unfold find_similar_by_image
  rw [hfi, hq]
  rfl

end Picta.VisualSearchEngine

namespace Picta

open VisualSearchEngine

/-! # Claim C7 — visual similarity search -/

/-- C7: on the engine built from a store with unique ids, for an indexed
photo id, `find_similar_by_image` (with the default self-exclusion)
never returns the photo itself, returns at most `k` results with
non-increasing similarities all in [−1, 1], and on a corpus with more
than `k` indexed photos returns exactly `k` results. -/
theorem C7_find_similar_visual (images : List (ImageRow ℝ)) (image_id : ℤ)
    (top_k : ℕ) (hnd : (images.map (·.id)).Nodup) (qv : List ℝ)
    (hq : get_vector images image_id = some qv) :
    (∀ p ∈ find_similar_by_image (fromImages images) image_id top_k true,
      p.1.id ≠ image_id) ∧
    (find_similar_by_image (fromImages images) image_id top_k true).length
      ≤ top_k ∧
    List.Pairwise (fun a b : ImageRow ℝ × ℝ => b.2 ≤ a.2)
      (find_similar_by_image (fromImages images) image_id top_k true) ∧
    (∀ p ∈ find_similar_by_image (fromImages images) image_id top_k true,
      -1 ≤ p.2 ∧ p.2 ≤ 1) ∧
    (top_k < (images.filter (fun r => r.clip_vector.isSome)).length →
      (find_similar_by_image (fromImages images) image_id top_k true).length
        = top_k) := by
  -- decompose the indexed-photo hypothesis
  have hq0 := hq
  unfold get_vector at hq0
  obtain ⟨r0, hfind, hbind⟩ := Option.bind_eq_some.mp hq0
  have hid0 : r0.id = image_id := by
    have hp := List.find?_some hfind
    simpa using hp
  have hr0 : r0 ∈ images := List.mem_of_find?_eq_some hfind
  have hcv : r0.clip_vector = some qv := by
    cases hcv0 : r0.clip_vector with
    | none => rw [hcv0] at hbind; cases hbind
    | some v =>
      simp only [hcv0] at hbind
      split at hbind
      · cases hbind
      · rw [Option.some.inj hbind]
  have hmemrow : (image_id, qv) ∈ images.filterMap
      (fun r => r.clip_vector.map (fun v => (r.id, v))) :=
    List.mem_filterMap.mpr ⟨r0, hr0, by rw [hcv]; simp [hid0]⟩
  have hrows_ne : images.filterMap
      (fun r => r.clip_vector.map (fun v => (r.id, v))) ≠ [] := by
    intro h
    rw [h] at hmemrow
    cases hmemrow
  have hfi : (fromImages images).faiss_index =
      some ((images.filterMap (fun r => r.clip_vector.map (fun v => (r.id, v)))).map
        (fun p => normalize_L2 p.2)) := by
    show (build_index images (none, [])).1 = _
    rw [build_index_eq, if_neg hrows_ne]
  have hidm : (fromImages images).id_mapping =
      (images.filterMap (fun r => r.clip_vector.map (fun v => (r.id, v)))).map
        (·.1) := by
    show (build_index images (none, [])).2 = _
    rw [build_index_eq, if_neg hrows_ne]
  have hout : find_similar_by_image (fromImages images) image_id top_k true =
      ((((sort_score_desc ((images.filterMap (fun r =>
          r.clip_vector.map (fun v => (r.id, v)))).map
          (fun p => (p.1, dotR (normalize_L2 qv) (normalize_L2 p.2))))).take
          (top_k + 1)).filter
        (fun p => p.1 ≠ image_id)).filterMap (fun p =>
          (get_image_info images p.1).map (fun info => (info, p.2)))).take
        top_k := by
    rw [find_similar_eq _ _ _ hfi hq, hidm, List.zip_map', List.map_map]
    simp only [Function.comp_def]
    rfl
  rw [hout]
  set rows := images.filterMap (fun r => r.clip_vector.map (fun v => (r.id, v)))
    with hrows
  set D := rows.map
    (fun p => (p.1, dotR (normalize_L2 qv) (normalize_L2 p.2))) with hD
  set T := (sort_score_desc D).take (top_k + 1) with hT
  set kept := T.filter (fun p => p.1 ≠ image_id) with hkept
  have hDfst : D.map Prod.fst = rows.map (·.1) := by
    rw [hD, List.map_map]
    rfl
  have hDfst_nodup : (D.map Prod.fst).Nodup := by
    rw [hDfst]
    exact hnd.sublist (filterMap_clip_ids_sublist images)
  have hkept_subD : ∀ a ∈ kept, a ∈ D := by
    intro a ha
    have h1 : a ∈ T := List.mem_of_mem_filter ha
    have h2 : a ∈ sort_score_desc D := List.take_subset _ _ h1
    exact (List.mem_insertionSort _).mp h2
  have hinfo_eq : ∀ (i : ℤ) info, get_image_info images i = some info →
      info.id = i := by
    intro i info hinfo
    have hp := List.find?_some hinfo
    simpa using hp
  refine ⟨?_, List.length_take_le _ _, ?_, ?_, ?_⟩
  · -- no self-hit
    intro p hp
    obtain ⟨a, ha, hFa⟩ := List.mem_filterMap.mp (List.take_subset _ _ hp)
    obtain ⟨info, hinfo, hpeq⟩ := Option.map_eq_some'.mp hFa
    have hane : a.1 ≠ image_id := of_decide_eq_true (List.mem_filter.mp ha).2
    rw [← hpeq]
    simpa [hinfo_eq a.1 info hinfo] using hane
  · -- non-increasing similarities
    apply List.Pairwise.sublist (List.take_sublist _ _)
    refine @pairwise_filterMap_of_pairwise (ℤ × ℝ) (ImageRow ℝ × ℝ)
      scoreDescRel (fun a b => b.2 ≤ a.2) _ ?_ kept ?_
    · intro a a' b b' hb hb' hr
      obtain ⟨i1, -, h1⟩ := Option.map_eq_some'.mp hb
      obtain ⟨i2, -, h2⟩ := Option.map_eq_some'.mp hb'
      rw [← h1, ← h2]
      exact hr
    · exact (List.sorted_insertionSort scoreDescRel D).sublist
        ((List.filter_sublist _).trans (List.take_sublist _ _))
  · -- bounds
    intro p hp
    obtain ⟨a, ha, hFa⟩ := List.mem_filterMap.mp (List.take_subset _ _ hp)
    obtain ⟨info, -, hpeq⟩ := Option.map_eq_some'.mp hFa
    obtain ⟨w, -, hw⟩ := List.mem_map.mp (hkept_subD a ha)
    have h2 : p.2 = a.2 := by rw [← hpeq]
    have h3 : a.2 = dotR (normalize_L2 qv) (normalize_L2 w.2) := by rw [← hw]
    rw [h2, h3]
    exact ⟨(dotR_normalized_bounds qv w.2).1, (dotR_normalized_bounds qv w.2).2⟩
  · -- exactly k on a large corpus
    intro hcount
    have hDlen : D.length = (images.filter (fun r => r.clip_vector.isSome)).length := by
      rw [hD, List.length_map, hrows, filterMap_clip_length]
    have hsortlen : (sort_score_desc D).length = D.length :=
      List.length_insertionSort _ _
    have hTlen : T.length = top_k + 1 := by
      rw [hT, List.length_take, hsortlen, hDlen]
      exact Nat.min_eq_left hcount
    have hself_le : (T.filter (fun a => a.1 = image_id)).length ≤ 1 := by
      have hsub : (T.filter (fun a => a.1 = image_id)).Sublist
          ((sort_score_desc D).filter (fun a => a.1 = image_id)) :=
        (List.take_sublist _ _).filter _
      have hperm : ((sort_score_desc D).filter (fun a => a.1 = image_id)).length
          = (D.filter (fun a => a.1 = image_id)).length :=
        ((List.perm_insertionSort scoreDescRel D).filter _).length_eq
      calc (T.filter (fun a => a.1 = image_id)).length
          ≤ ((sort_score_desc D).filter (fun a => a.1 = image_id)).length :=
            hsub.length_le
        _ = (D.filter (fun a => a.1 = image_id)).length := hperm
        _ ≤ 1 := length_filter_fst_le_one image_id hDfst_nodup
    have hsplit : T.length = (T.filter (fun a => decide (a.1 = image_id))).length +
        (T.filter (fun a => !decide (a.1 = image_id))).length :=
      List.length_eq_length_filter_add _
    have hkept_eq : kept = T.filter (fun a => !decide (a.1 = image_id)) := by
      rw [hkept]
      apply List.filter_congr
      intro a _
      simp [decide_not]
    have hkeptlen : top_k ≤ kept.length := by
      rw [hkept_eq]
      omega
    have hallsome : ∀ a ∈ kept, ((get_image_info images a.1).map
        (fun info => (info, a.2))).isSome = true := by
      intro a ha
      have h1 : a.1 ∈ D.map Prod.fst :=
        List.mem_map.mpr ⟨a, hkept_subD a ha, rfl⟩
      rw [hDfst] at h1
      have h2 : a.1 ∈ images.map (·.id) :=
        (filterMap_clip_ids_sublist images).subset h1
      obtain ⟨row, hrow, hrid⟩ := List.mem_map.mp h2
      have h3 : (get_image_info images a.1).isSome = true := by
        unfold get_image_info
        exact List.find?_isSome.mpr ⟨row, hrow, by simp [hrid]⟩
      cases hx : get_image_info images a.1 with
      | none => rw [hx] at h3; cases h3
      | some info => rfl
    rw [List.length_take, length_filterMap_of_all_some _ hallsome]
    exact Nat.min_eq_left hkeptlen

end Picta

namespace Picta

open VisualSearchEngine

/-- Witness for C7 on a three-photo corpus with `k = 1`. -/
theorem C7_find_similar_visual_witness :
    get_vector exVImages 1 = some [1, 0] ∧
    1 < (exVImages.filter (fun r => r.clip_vector.isSome)).length ∧
    (∀ p ∈ find_similar_by_image (fromImages exVImages) 1 1 true,
      p.1.id ≠ 1) ∧
    (find_similar_by_image (fromImages exVImages) 1 1 true).length = 1 :=
  ⟨rfl, by decide,
    (C7_find_similar_visual exVImages 1 1 (by decide) [1, 0] rfl).1,
    (C7_find_similar_visual exVImages 1 1 (by decide) [1, 0] rfl).2.2.2.2
      (by decide)⟩

end Picta
